import Mathlib

/-!
Verification development for the JobTracker capture pipeline.

The definitions below are a shallow embedding of the TypeScript sources:
* `src/background/index.ts` (capture orchestrator: `computeRecordId`,
  `normalizeWorkdayUrl`, `loadSeenIds`, `saveSeenIds`, `maybeAppend`,
  the in-flight lock table, command handlers),
* `src/lib/sheets.ts` (token manager `getToken`, `sheetsFetch` retry loop,
  `ensureHeaderRow`, `removeDuplicateColumnsByLabels`, `appendRow`,
  `deleteRowByRecordId`),
* `src/lib/storage.ts` (`pushRecentEntry`, settings, recent list),
* `src/popup/main.tsx` (`syncFromSheet` row decoding).

JavaScript objects used as string-keyed maps are embedded as association
lists with unique keys; `Date.now()` is a `Nat` parameter (each `await`-free
block of the source samples it at most a few milliseconds apart, and every
property proved here is insensitive to that drift, so one sample per
invocation is used); `chrome.storage` is a record threaded through the
functions; the asynchronous `appendRow(...).then/.catch` continuation is
returned as an explicit pending action and applied as a separate step.
Remote I/O (the Sheets HTTP surface) is captured in an explicit event trace.
-/

namespace JobTracker

/-- One cell map used for JS `Record<string, number>` objects
(`seenRecordIds`, `inflightLocks`).  Keys are unique. -/
abbrev NatMap := List (String × Nat)

/-- JS `obj[k]` lookup (`undefined` becomes `none`). -/
def alGet (m : NatMap) (k : String) : Option Nat :=
  (m.find? (fun kv => kv.1 == k)).map (·.2)

/-- JS `obj[k] = v`: replace the value if the key exists, else add the
binding. -/
def alSet (m : NatMap) (k : String) (v : Nat) : NatMap :=
  if (m.find? (fun kv => kv.1 == k)).isSome then
    m.map (fun kv => if kv.1 == k then (kv.1, v) else kv)
  else
    m ++ [(k, v)]

/-- JS `delete obj[k]`. -/
def alErase (m : NatMap) (k : String) : NatMap :=
  m.filter (fun kv => ¬ kv.1 == k)

/-- `CaptureEntry` from `src/lib/storage.ts`.  Optional TS fields are
`Option`; the mandatory string fields stay `String`. -/
structure CaptureEntry where
  date_applied : String
  job_title : String
  company : String
  location : Option String
  job_posting_url : String
  salary_text : String
  listing_posted_date : String
  posted_relative : Option String
  job_timeline : String
  record_id : Option String
  cover_letter : Option String
  status : Option String
deriving DecidableEq

/-- `APPENDED_TTL_MS = 30 * 24 * 3600 * 1000` (background script, line 49). -/
def APPENDED_TTL_MS : Nat := 30 * 24 * 3600 * 1000

/-- `CACHE_VERSION = 1`. -/
def CACHE_VERSION : Nat := 1

/-- The background script's durable and in-process state:
`chrome.storage.local` keys `seenRecordIds`, `cacheVersion`,
`lastHealthCheck`, `recentEntries`, `headerEnsured`, plus the purely
in-memory `inflightLocks` table. -/
structure BgState where
  seenRecordIds : NatMap
  cacheVersion : Nat
  lastHealthCheck : Nat
  recentEntries : List CaptureEntry
  headerEnsured : List String
  inflightLocks : NatMap
deriving DecidableEq

/-- `loadSeenIds` (background script, lines 119-139): read the persisted
seen-set and keep only entries with a truthy timestamp whose age is within
the TTL.  The version / health-check comparison in the source only logs and
is a no-op on state.  JS computes `now - ts` as a possibly negative number;
`Nat` truncated subtraction gives the same keep/evict decision. -/
def loadSeenIds (st : BgState) (now : Nat) : NatMap :=
  st.seenRecordIds.filter (fun kv => 0 < kv.2 ∧ now - kv.2 ≤ APPENDED_TTL_MS)

/-- `saveSeenIds` (lines 141-147): persist the map together with the
current cache version and a fresh health-check timestamp. -/
def saveSeenIds (st : BgState) (ids : NatMap) (now : Nat) : BgState :=
  { st with seenRecordIds := ids, cacheVersion := CACHE_VERSION, lastHealthCheck := now }

/-- `pushRecentEntry` (`src/lib/storage.ts`, lines 97-103): `unshift` then
`slice(0, 50)`. -/
def pushRecentEntry (st : BgState) (e : CaptureEntry) : BgState :=
  { st with recentEntries := (e :: st.recentEntries).take 50 }

/-- The `get-recent` handler returns `(recentEntries || []).slice(0, 10)`. -/
def getRecentResponse (st : BgState) : List CaptureEntry :=
  st.recentEntries.take 10

/-! ## Bearer-token manager (`src/lib/sheets.ts`) -/

/-- `TokenBundle` (lines 5-8): bearer token plus absolute expiry (epoch ms). -/
structure TokenBundle where
  accessToken : String
  expiry : Nat
deriving DecidableEq

/-- `getToken` (lines 10-18): return the persisted bundle only when
`token.expiry` is truthy and `token.expiry > now + 60_000`; otherwise
`null`. -/
def getToken (stored : Option TokenBundle) (now : Nat) : Option TokenBundle :=
  match stored with
  | none => none
  | some token =>
    if 0 < token.expiry ∧ now + 60000 < token.expiry then some token else none

/-- `sheetsFetch` (lines 70-87), abstracted over the sequence of HTTP
statuses the network returns: fetch number `i` yields status `statuses i`.
On a 401 with `retry > 0` the cached token is removed and the call recurses
with `retry - 1`.  The result is the propagated status together with the
total number of fetches performed.  Every call site in the source uses the
default `retry = 2`. -/
def sheetsFetch (statuses : Nat → Nat) (i : Nat) : Nat → Nat × Nat
  | 0 => (statuses i, i + 1)
  | r + 1 =>
    if statuses i = 401 then sheetsFetch statuses (i + 1) r
    else (statuses i, i + 1)

/-- Number of fetches `sheetsFetch` performs starting from fetch `0` with
the call sites' default `retry = 2`. -/
def sheetsFetchCount (statuses : Nat → Nat) : Nat :=
  (sheetsFetch statuses 0 2).2

/-! ## Identity resolver (background script, lines 55-101)

The JS regexes are embedded as explicit leftmost-match scanners with the
exact greedy/backtracking behaviour of the source patterns (all of them use
only ASCII classes and none uses the `u` flag). -/

/-- ASCII lower-case letter, by code point. -/
def isAsciiLower (c : Char) : Bool := 97 ≤ c.toNat && c.toNat ≤ 122

/-- ASCII upper-case letter, by code point. -/
def isAsciiUpper (c : Char) : Bool := 65 ≤ c.toNat && c.toNat ≤ 90

/-- `String.prototype.toLowerCase` restricted to ASCII (every string this
development feeds it is ASCII). -/
def lowerChar (c : Char) : Char :=
  if 65 ≤ c.toNat ∧ c.toNat ≤ 90 then Char.ofNat (c.toNat + 32) else c

/-- `String.prototype.toUpperCase` restricted to ASCII. -/
def upperChar (c : Char) : Char :=
  if 97 ≤ c.toNat ∧ c.toNat ≤ 122 then Char.ofNat (c.toNat - 32) else c

/-- ASCII lowercasing of a whole string. -/
def lowerStr (s : String) : String := String.mk (s.data.map lowerChar)

/-- JS regex `\w` / word-boundary class `[A-Za-z0-9_]` (ASCII, no `u` flag). -/
def isWordChar (c : Char) : Bool :=
  isAsciiLower c || isAsciiUpper c || c.isDigit || c == '_'

/-- `[\w-]`, the class used by the Lever pattern. -/
def isWordDash (c : Char) : Bool := isWordChar c || c == '-'

/-- Leftmost-match driver: try the fragment matcher `f` at every start
position, left to right — the semantics of an unanchored
`String.prototype.match`. -/
def scanList {α : Type} (f : List Char → Option α) : List Char → Option α
  | [] => f []
  | c :: l =>
    match f (c :: l) with
    | some r => some r
    | none => scanList f l

/-- Case-insensitive literal prefix test; `pat` is given lower-case. -/
def ciStarts : List Char → List Char → Bool
  | [], _ => true
  | _ :: _, [] => false
  | p :: ps, c :: cs => p == lowerChar c && ciStarts ps cs

/-- Fragment matcher for `/\/jobs\/view\/(\d+)\//` at one position: the
literal `/jobs/view/`, then a maximal nonempty digit run, then `/`
(the greedy `\d+` cannot backtrack into a successful `\/`). -/
def matchLinkedInAt (l : List Char) : Option (List Char) :=
  if "/jobs/view/".data.isPrefixOf l then
    let l1 := l.drop 11
    let ds := l1.takeWhile Char.isDigit
    if ds = [] then none
    else match l1.drop ds.length with
      | '/' :: _ => some ds
      | _ => none
  else none

/-- `url.match(/\/jobs\/view\/(\d+)\//)`, capture group 1. -/
def linkedInJobId (url : String) : Option String :=
  (scanList matchLinkedInAt url.data).map String.mk

/-- Tail of `/https?:\/\/jobs\.lever\.co\/[\w-]+\/([\w-]+)/i` after the
optional `s`: literal `://jobs.lever.co/`, a nonempty `[\w-]+` segment,
`/`, then the captured nonempty `[\w-]+`. -/
def leverTail (l : List Char) : Option (List Char) :=
  if ciStarts "://jobs.lever.co/".data l then
    let l1 := l.drop 17
    let seg1 := l1.takeWhile isWordDash
    if seg1 = [] then none
    else match l1.drop seg1.length with
      | '/' :: l2 =>
        let seg2 := l2.takeWhile isWordDash
        if seg2 = [] then none else some seg2
      | _ => none
  else none

/-- Fragment matcher for the Lever pattern at one position (`https?` tries
the greedy `s` first, then falls back without it). -/
def matchLeverAt (l : List Char) : Option (List Char) :=
  if ciStarts "http".data l then
    let r := l.drop 4
    match (match r with
           | c :: rest => if lowerChar c == 's' then leverTail rest else none
           | [] => none) with
    | some cap => some cap
    | none => leverTail r
  else none

/-- `url.match(/https?:\/\/jobs\.lever\.co\/[\w-]+\/([\w-]+)/i)`, capture
group 1 (returned with its source casing). -/
def leverJobId (url : String) : Option String :=
  (scanList matchLeverAt url.data).map String.mk

/-- `/pat/i.test(s)` for a lower-case literal `pat`. -/
def icontains (s : String) (pat : String) : Bool :=
  (scanList (fun l => if pat.data.isPrefixOf l then some () else none)
    (s.data.map lowerChar)).isSome

/-! Path rewriting inside `normalizeWorkdayUrl`. -/

/-- `path.replace(/\/+$/, '')`: drop the trailing run of slashes. -/
def stripTrailingSlashes (l : List Char) : List Char :=
  (l.reverse.dropWhile (· == '/')).reverse

/-- `path.replace(/^\/(?:[a-z]{2}-[A-Z]{2})\//, '/')`: drop a leading
locale segment such as `/en-US/`. -/
def stripLocale (l : List Char) : List Char :=
  match l with
  | '/' :: a :: b :: '-' :: d :: e :: '/' :: rest =>
    if isAsciiLower a && isAsciiLower b && isAsciiUpper d && isAsciiUpper e then
      '/' :: rest
    else l
  | _ => l

/-- Whether `/\/(apply)(?:\/.*)?$/i` matches at this position: literal
`/apply` (case-insensitive) followed by end of string or `/`. -/
def applySuffixHere (l : List Char) : Bool :=
  ciStarts "/apply".data l &&
    (match l.drop 6 with
     | [] => true
     | c :: _ => c == '/')

/-- `path.replace(/\/(apply)(?:\/.*)?$/i, '')`: truncate at the leftmost
`/apply` that is followed by end of string or another segment. -/
def stripApply : List Char → List Char
  | [] => []
  | c :: l => if applySuffixHere (c :: l) then [] else c :: stripApply l

/-- `path.replace(/\/+/, '/')` (no `g` flag): collapse only the first run
of slashes. -/
def collapseSlashes : List Char → List Char
  | [] => []
  | '/' :: l => '/' :: l.dropWhile (· == '/')
  | c :: l => c :: collapseSlashes l

/-! The requisition-id patterns. -/

/-- `\b` after a digit: next char must not be a word char. -/
def boundaryOk : List Char → Bool
  | [] => true
  | c :: _ => !(isWordChar c)

/-- Greedy `\d{4,}\b` with a given already-matched prefix of the capture. -/
def reqDigits (pre : List Char) (l : List Char) : Option (List Char) :=
  let ds := l.takeWhile Char.isDigit
  if 4 ≤ ds.length then
    if boundaryOk (l.drop ds.length) then some (pre ++ ds) else none
  else none

/-- Fragment matcher for `/[_-](R-?\d{4,})\b/i` at one position; returns
capture group 1.  When the char after `R` is `-`, the failed greedy branch
cannot be rescued by dropping the optional `-` (a digit run cannot start at
`-`), exactly as in the source pattern. -/
def matchReqAt (l : List Char) : Option (List Char) :=
  match l with
  | c :: r :: rest =>
    if (c == '_' || c == '-') && (r == 'R' || r == 'r') then
      match rest with
      | '-' :: rest2 => reqDigits [r, '-'] rest2
      | _ => reqDigits [r] rest
    else none
  | _ => none

/-- `.toUpperCase().replace(/_/g, '-')` applied to a match. -/
def normToken (tok : List Char) : List Char :=
  (tok.map upperChar).map (fun c => if c == '_' then '-' else c)

/-- Leftmost `[_-](R-?\d{4,})\b` capture in a string, normalized. -/
def findReqToken (l : List Char) : Option (List Char) :=
  (scanList matchReqAt l).map normToken

/-- `/^R-?\d{4,}$/i` on one path segment. -/
def segReqTest (seg : List Char) : Bool :=
  match seg with
  | r :: rest =>
    (r == 'R' || r == 'r') &&
      (match rest with
       | '-' :: ds => if 4 ≤ ds.length then ds.all Char.isDigit else false
       | ds => if 4 ≤ ds.length then ds.all Char.isDigit else false)
  | [] => false

/-- `path.split('/')` (JS semantics: `""` splits to `[""]`, a leading
separator yields a leading empty segment). -/
def splitSlash : List Char → List (List Char)
  | [] => [[]]
  | '/' :: rest => [] :: splitSlash rest
  | c :: rest =>
    match splitSlash rest with
    | s :: ss => (c :: s) :: ss
    | [] => [[c]]

/-- The `for (const p of parts)` fallback loop: first segment matching
`/^R-?\d{4,}$/i`, normalized. -/
def findSegToken : List (List Char) → Option (List Char)
  | [] => none
  | s :: ss => if segReqTest s then some (normToken s) else findSegToken ss

/-- The relevant observable fields of a JS `URL` object. -/
structure JsUrl where
  protocol : String
  host : String
  pathname : String
deriving DecidableEq

/-- Split off the scheme at the first `://`. -/
def splitScheme : List Char → Option (List Char × List Char)
  | [] => none
  | c :: l =>
    if "://".data.isPrefixOf (c :: l) then some ([], (c :: l).drop 3)
    else (splitScheme l).map (fun p => (c :: p.1, p.2))

/-- `new URL(raw)` for plain absolute `scheme://host/path` URLs (the only
shape the identity resolver receives; userinfo, ports and IP normalization
are outside the modeled domain).  JS lowercases scheme and host; `pathname`
of a URL without a path is `/`.  Parse failure models the constructor
throwing (handled by the source's `catch`). -/
def parseUrl (raw : String) : Option JsUrl :=
  match splitScheme raw.data with
  | none => none
  | some (scheme, rest) =>
    if scheme ≠ [] ∧ scheme.all (fun c => isAsciiLower c || isAsciiUpper c) then
      let hostPart := rest.takeWhile (fun c => !(c == '/' || c == '?' || c == '#'))
      let after := rest.drop hostPart.length
      let path := after.takeWhile (fun c => !(c == '?' || c == '#'))
      if hostPart = [] then none
      else
        some ⟨String.mk (scheme.map lowerChar) ++ ":",
              String.mk (hostPart.map lowerChar),
              if path = [] then "/" else String.mk path⟩
    else none

/-- `normalizeWorkdayUrl` (background script, lines 55-82).  The
`raw || location.href` default only fires for an empty `raw`, which cannot
reach this function from `computeRecordId` (the URL then contains
`workday`); an unparseable URL takes the `catch` branch. -/
def normalizeWorkdayUrl (raw : String) : String × Option String :=
  match parseUrl raw with
  | none => (raw, none)
  | some u =>
    let host := lowerStr u.host
    let path0 := stripTrailingSlashes u.pathname.data
    let path1 := stripLocale path0
    let path2 := stripApply path1
    let path3 := collapseSlashes path2
    let cleanUrl := u.protocol ++ "//" ++ host ++ String.mk path3
    let reqId :=
      match findReqToken cleanUrl.data with
      | some tok => some tok
      | none => findSegToken (splitSlash path3)
    (cleanUrl, reqId.map String.mk)

/-- `computeRecordId` (background script, lines 84-101).  `sha256Hex` is an
external primitive, passed in as `hash`.  The function returns the id and
the (possibly URL-rewritten) entry; the caller attaches the id. -/
def computeRecordId (hash : String → String) (entry : CaptureEntry) :
    String × CaptureEntry :=
  let url := entry.job_posting_url
  match linkedInJobId url with
  | some id => ("li:" ++ id, entry)
  | none =>
    match leverJobId url with
    | some id => ("lever:" ++ id, entry)
    | none =>
      let step : CaptureEntry × Option String :=
        if icontains url "workday" then
          let n := normalizeWorkdayUrl url
          ({ entry with job_posting_url := n.1 }, n.2)
        else (entry, none)
      match step.2 with
      | some reqId => ("wd:" ++ reqId, step.1)
      | none =>
        let e := step.1
        let base := e.job_title ++ "|" ++ e.company ++ "|" ++
          e.job_posting_url ++ "|" ++ e.date_applied
        ("h:" ++ hash base, e)

/-! ## Capture orchestrator (background script, lines 6-13 and 175-236)

Remote I/O is recorded in an event trace; the asynchronous
`appendRow(...)` launched inside `maybeAppend` is returned as a pending
continuation argument and applied as a separate step. -/

/-- Observable remote-table actions and storage round-trips. -/
inductive SheetEvent where
  | ensureHeaderWrite (sheetId : String)
  | loadSeen
  | saveSeen
  | pushRecent (e : CaptureEntry)
  | remoteAppendStart (sheetId : String) (e : CaptureEntry)
  | remoteUpdate (sheetId : String) (recordId : String)
  | rowDelete (sheetId : String) (rowIndex : Nat)
deriving DecidableEq

/-- `ensureHeaderOnce` (lines 6-13): call `ensureHeaderRow` only when the
persisted `headerEnsured` flag for this sheet is unset, then set it. -/
def ensureHeaderOnce (sheetId : String) (st : BgState) :
    BgState × List SheetEvent :=
  if sheetId ∈ st.headerEnsured then (st, [])
  else ({ st with headerEnsured := sheetId :: st.headerEnsured },
        [SheetEvent.ensureHeaderWrite sheetId])

/-- The `{ appended, reason?, optimistic? }` response of `maybeAppend`. -/
structure AppendResult where
  appended : Bool
  reason : Option String
  optimistic : Option Bool
deriving DecidableEq

/-- Result of one `maybeAppend` invocation: response, post-state, event
trace, and the pending background `appendRow` continuation (record id and
the entry it captured), if one was launched. -/
structure AppendOutcome where
  result : AppendResult
  state : BgState
  events : List SheetEvent
  pending : Option (String × CaptureEntry)
deriving DecidableEq

/-- `maybeAppend` (lines 175-236).  `validateCacheHealth` only reads and
logs, so it is a no-op on state.  `loadSeenIds` returns only entries with a
positive timestamp, so `if (seen[recordId])` is exactly a key-presence
test.  All `Date.now()` samples of the invocation are modeled as `now`. -/
def maybeAppend (hash : String → String) (sheetId : String)
    (entry : CaptureEntry) (now : Nat) (st : BgState) : AppendOutcome :=
  if sheetId = "" then
    ⟨⟨false, some "No Sheet ID configured", none⟩, st, [], none⟩
  else
    let h := ensureHeaderOnce sheetId st
    let st1 := h.1
    let r := computeRecordId hash entry
    let recordId := r.1
    let entry1 := { r.2 with record_id := some recordId }
    let lockUntil := (alGet st1.inflightLocks recordId).getD 0
    if now < lockUntil then
      ⟨⟨false, some "inflight", none⟩, st1, h.2, none⟩
    else
      let st2 := { st1 with inflightLocks := alSet st1.inflightLocks recordId (now + 10000) }
      let seen := loadSeenIds st2 now
      if (alGet seen recordId).isSome then
        ⟨⟨false, some "duplicate", none⟩,
         { st2 with inflightLocks := alErase st2.inflightLocks recordId },
         h.2 ++ [SheetEvent.loadSeen], none⟩
      else
        let seen2 := alSet seen recordId now
        let st3 := saveSeenIds st2 seen2 now
        let st4 := pushRecentEntry st3 entry1
        let st5 := { st4 with inflightLocks := alErase st4.inflightLocks recordId }
        ⟨⟨true, none, some true⟩, st5,
         h.2 ++ [SheetEvent.loadSeen, SheetEvent.saveSeen,
                 SheetEvent.pushRecent entry1,
                 SheetEvent.remoteAppendStart sheetId entry1],
         some (recordId, entry1)⟩

/-- The record id `maybeAppend` computes for an entry (line 181). -/
def resolvedId (hash : String → String) (e : CaptureEntry) : String :=
  (computeRecordId hash e).1

/-- The entry as mutated by `computeRecordId` and the
`entry.record_id = recordId` assignment (line 182). -/
def resolvedEntry (hash : String → String) (e : CaptureEntry) : CaptureEntry :=
  { (computeRecordId hash e).2 with record_id := some (computeRecordId hash e).1 }

/-- The `.catch` continuation of the background `appendRow` (lines
220-228): reload the seen-set, delete the failed id, persist.  (The
success continuation only notifies listeners and leaves state unchanged.) -/
def remoteFailureRollback (recordId : String) (now : Nat) (st : BgState) :
    BgState :=
  saveSeenIds st (alErase (loadSeenIds st now) recordId) now

/-! ## Remote table header contract (`src/lib/sheets.ts`, lines 89-116 and
233-266)

The header row is modeled as the list of its cell values.  The styling,
dropdown-validation and conditional-formatting `batchUpdate` requests of
`ensureHeaderRow` do not change any cell value, so they do not appear in
the header-row function. -/

/-- `DEFAULT_HEADER` (lines 90-100). -/
def DEFAULT_HEADER : List String :=
  ["Job Title", "Date Applied", "Company", "Location", "Date Posted",
   "Job Timeline", "Cover Letter", "Status", "Record ID"]

/-- `String.prototype.trim` (ASCII whitespace). -/
def jsTrim (s : String) : String :=
  String.mk (((s.data.dropWhile Char.isWhitespace).reverse.dropWhile
    Char.isWhitespace).reverse)

/-- The `PUT .../values/Sheet1!A1` with `values: [header]` (lines
107-110): overwrite the first nine header cells, leaving any cells to the
right untouched. -/
def putHeaderRow (row : List String) : List String :=
  DEFAULT_HEADER ++ row.drop 9

/-- `getHeaderValues` (lines 233-239): the header cells, trimmed. -/
def getHeaderValues (row : List String) : List String :=
  row.map (fun v => jsTrim v)

/-- The case-insensitive label comparison of
`removeDuplicateColumnsByLabels`. -/
def labelMatches (cell label : String) : Bool :=
  lowerStr cell == lowerStr label

/-- Indices (ascending) of header cells matching `label`. -/
def labelPositions (header : List String) (label : String) : List Nat :=
  (List.range header.length).filter
    (fun i => labelMatches (header.getD i "") label)

/-- The `toDelete` accumulation (lines 245-256): for each label with more
than one occurrence, every occurrence except the left-most. -/
def dupDeleteIndices (header : List String) (labels : List String) : List Nat :=
  labels.foldl
    (fun acc label =>
      let occ := labelPositions header label
      if 1 < occ.length then acc ++ occ.tail else acc) []

/-- `toDelete.sort((a, b) => b - a)`: descending. -/
def sortDesc (l : List Nat) : List Nat :=
  l.mergeSort (fun a b => b ≤ a)

/-- The sequence of `deleteDimension` column requests, executed in order
on the current sheet. -/
def deleteColumns (row : List String) (idxs : List Nat) : List String :=
  idxs.foldl (fun r i => r.eraseIdx i) row

/-- `removeDuplicateColumnsByLabels` (lines 241-266), its effect on the
header row. -/
def removeDuplicateColumnsByLabels (row : List String)
    (labels : List String) : List String :=
  let header := getHeaderValues row
  if header.length = 0 then row
  else
    let toDelete := dupDeleteIndices header labels
    if toDelete.length = 0 then row
    else deleteColumns row (sortDesc toDelete)

/-- `ensureHeaderRow` (lines 104-116), its effect on the header row:
overwrite the canonical nine cells, then drop duplicate legacy
`Cover Letter` / `Status` columns. -/
def ensureHeaderRowHeader (row : List String) : List String :=
  removeDuplicateColumnsByLabels (putHeaderRow row) ["Cover Letter", "Status"]

/-- `deleteRowByRecordId` (lines 363-399): unconditional `ensureHeaderRow`
first, then locate the `Record ID` column in the re-read header, scan it
for the id, and delete that row.  `preHeader` is the header row before the
call and `idCol` the Record-ID column cells of rows 2.. as re-read after
the ensure.  Returns the events performed and the outcome. -/
def deleteRowByRecordId (sheetId recordId : String) (preHeader : List String)
    (idCol : List String) : List SheetEvent × Except String Unit :=
  if recordId = "" then ([], Except.error "Missing recordId")
  else
    let ev0 := [SheetEvent.ensureHeaderWrite sheetId]
    let header := ensureHeaderRowHeader preHeader
    match header.findIdx? (fun h => h == "Record ID") with
    | none => (ev0, Except.error "Record ID column missing")
    | some _ =>
      match idCol.findIdx? (fun v => v == recordId) with
      | none => (ev0, Except.error "Row not found")
      | some i => (ev0 ++ [SheetEvent.rowDelete sheetId (i + 2)], Except.ok ())

/-- The `sheet-update` handler (background script, lines 329-365), up to
and including the remote mutation: `ensureHeaderOnce` gates the header
rewrite, then `updateRowByRecordId` mutates the remote table (that
function lives outside the snapshot; the event stands for the call). -/
def sheetUpdateCmd (sheetId recordId : String) (st : BgState) :
    BgState × List SheetEvent :=
  let h := ensureHeaderOnce sheetId st
  (h.1, h.2 ++ [SheetEvent.remoteUpdate sheetId recordId])

/-! ## Row encoding (`appendRow`, lines 303-350) and decoding
(`syncFromSheet`, `src/popup/main.tsx`, lines 29-136) -/

/-- `titleText.replace(/"/g, '""')`. -/
def escQuotes (s : String) : String :=
  String.mk (s.data.foldr
    (fun c acc => if c == '"' then '"' :: '"' :: acc else c :: acc) [])

/-- The `Job Title` cell (lines 308-312): a `HYPERLINK` formula when the
entry has a URL, else the escaped plain title. -/
def hyperlinkTitle (entry : CaptureEntry) : String :=
  let safeTitle := escQuotes entry.job_title
  if entry.job_posting_url ≠ "" then
    "=HYPERLINK(\"" ++ entry.job_posting_url ++ "\",\"" ++ safeTitle ++ "\")"
  else safeTitle

/-- The `rowMap` lookup (lines 323-333).  `postedDate` is
`relativeTextToDateString(...)`, whose output depends on the current
calendar date and is passed in as a parameter. -/
def rowCell (postedDate : String) (entry : CaptureEntry) (label : String) :
    String :=
  if label == "Job Title" then hyperlinkTitle entry
  else if label == "Date Applied" then entry.date_applied
  else if label == "Company" then entry.company
  else if label == "Location" then entry.location.getD ""
  else if label == "Date Posted" then postedDate
  else if label == "Job Timeline" then entry.job_timeline
  else if label == "Cover Letter" then "Not set"
  else if label == "Status" then "Applied"
  else if label == "Record ID" then entry.record_id.getD ""
  else ""

/-- `header.map((h) => rowMap[h] ?? '')` (line 334): the appended row. -/
def buildRow (postedDate : String) (header : List String)
    (entry : CaptureEntry) : List String :=
  header.map (rowCell postedDate entry)

/-- `getCol` in `syncFromSheet` (popup, lines 54-59): value of the column
whose header cell equals `name`, else the empty string. -/
def getCol (header row : List String) (name : String) : String :=
  match header.findIdx? (fun h => h == name) with
  | some i => row.getD i ""
  | none => ""

/-- `jobTitleCell.includes('HYPERLINK')`. -/
def containsHyper (cs : List Char) : Bool :=
  (scanList
    (fun l => if "HYPERLINK".data.isPrefixOf l then some () else none)
    cs).isSome

/-- Fragment matcher for `/HYPERLINK\("([^"]+)"/` at one position. -/
def matchHyperUrlAt (l : List Char) : Option (List Char) :=
  if "HYPERLINK(\"".data.isPrefixOf l then
    let l1 := l.drop 11
    let cap := l1.takeWhile (fun c => !(c == '"'))
    if cap = [] then none
    else match l1.drop cap.length with
      | '"' :: _ => some cap
      | _ => none
  else none

/-- Fragment matcher for `/HYPERLINK\("[^"]+","([^"]+)"/` at one
position. -/
def matchHyperTitleAt (l : List Char) : Option (List Char) :=
  if "HYPERLINK(\"".data.isPrefixOf l then
    let l1 := l.drop 11
    let seg1 := l1.takeWhile (fun c => !(c == '"'))
    if seg1 = [] then none
    else
      let l2 := l1.drop seg1.length
      if "\",\"".data.isPrefixOf l2 then
        let l3 := l2.drop 3
        let cap := l3.takeWhile (fun c => !(c == '"'))
        if cap = [] then none
        else match l3.drop cap.length with
          | '"' :: _ => some cap
          | _ => none
      else none
  else none

/-- The entry object `syncFromSheet` builds from one sheet row (popup,
lines 50-108). -/
structure DecodedEntry where
  job_title : String
  date_applied : String
  company : String
  location : String
  listing_posted_date : String
  job_timeline : String
  cover_letter : String
  status : String
  record_id : String
  job_posting_url : String
  salary_text : String
deriving DecidableEq

/-- One row of the popup's sheet-to-entry conversion. -/
def decodeRow (header row : List String) : DecodedEntry :=
  let jobTitleCell := getCol header row "Job Title"
  let recordId := getCol header row "Record ID"
  let jobUrl :=
    if containsHyper jobTitleCell.data then
      match scanList matchHyperUrlAt jobTitleCell.data with
      | some u => String.mk u
      | none => ""
    else ""
  let cleanTitle :=
    if containsHyper jobTitleCell.data then
      match scanList matchHyperTitleAt jobTitleCell.data with
      | some t => String.mk t
      | none => jobTitleCell
    else jobTitleCell
  { job_title := cleanTitle
    date_applied := getCol header row "Date Applied"
    company := getCol header row "Company"
    location := getCol header row "Location"
    listing_posted_date := getCol header row "Date Posted"
    job_timeline := getCol header row "Job Timeline"
    cover_letter := getCol header row "Cover Letter"
    status := getCol header row "Status"
    record_id := recordId
    job_posting_url := jobUrl
    salary_text := "" }

/-- The popup's `filter` (line 108): keep only rows whose decoded
record id is nonempty after trimming. -/
def passesSyncFilter (d : DecodedEntry) : Bool :=
  !(d.record_id == "") && !(jsTrim d.record_id == "")

/-! ## Concrete sample data for witnesses and counterexamples -/

/-- A fully-populated capture entry with a given posting URL. -/
def sampleEntry (url : String) : CaptureEntry :=
  { date_applied := "Aug 14th 2025", job_title := "SWE", company := "Acme",
    location := some "NYC", job_posting_url := url, salary_text := "",
    listing_posted_date := "2 days ago", posted_relative := none,
    job_timeline := "", record_id := none, cover_letter := none,
    status := none }

/-- The background state of a fresh profile: every storage key unset. -/
def emptyBgState : BgState := ⟨[], 0, 0, [], [], []⟩

/-- Event classifiers used to state trace properties. -/
def isHeaderWrite : SheetEvent → Bool
  | SheetEvent.ensureHeaderWrite _ => true
  | _ => false

/-- A remote-table mutation: append, update or row delete. -/
def isRemoteMutation : SheetEvent → Bool
  | SheetEvent.remoteAppendStart _ _ => true
  | SheetEvent.remoteUpdate _ _ => true
  | SheetEvent.rowDelete _ _ => true
  | _ => false

/-! ## Map lemmas -/

theorem alGet_eq_none_of_not_mem_keys {l : NatMap} {k : String}
    (h : k ∉ l.map Prod.fst) : alGet l k = none := by
  induction l with
  | nil => rfl
  | cons kv t ih =>
    simp only [List.map_cons, List.mem_cons] at h
    push_neg at h
    simp only [alGet, List.find?_cons]
    have : (kv.1 == k) = false := by
      simp [beq_iff_eq]
      exact fun he => h.1 he.symm
    rw [this]
    exact ih h.2

theorem keys_filter_sub {l : NatMap} {p : String × Nat → Bool} {k : String}
    (h : k ∉ l.map Prod.fst) : k ∉ (l.filter p).map Prod.fst := by
  intro hmem
  rcases List.mem_map.1 hmem with ⟨kv, hkv, hfst⟩
  exact h (List.mem_map.2 ⟨kv, List.mem_of_mem_filter hkv, hfst⟩)

theorem alGet_alErase_self (l : NatMap) (k : String) :
    alGet (alErase l k) k = none := by
  apply alGet_eq_none_of_not_mem_keys
  intro hmem
  rcases List.mem_map.1 hmem with ⟨kv, hkv, hfst⟩
  have := List.of_mem_filter hkv
  simp only [hfst] at this
  simp at this

theorem alGet_alSet_self (l : NatMap) (k : String) (v : Nat) :
    alGet (alSet l k v) k = some v := by
  unfold alSet
  by_cases h : (l.find? (fun kv => kv.1 == k)).isSome = true
  · rw [if_pos h]
    induction l with
    | nil => simp at h
    | cons kv t ih =>
      rcases kv with ⟨a, b⟩
      by_cases hab : a = k
      · subst hab
        simp [alGet, List.find?_cons]
      · have hk : (a == k) = false := by simp [hab]
        have h2 : (List.find? (fun kv => kv.1 == k) t).isSome = true := by
          simpa [List.find?_cons, hk] using h
        have := ih h2
        simp only [List.map_cons]
        simp only [alGet, List.find?_cons] at this ⊢
        simpa [hk] using this
  · rw [if_neg h]
    have hn : l.find? (fun kv => kv.1 == k) = none := by
      cases hE : l.find? (fun kv => kv.1 == k) with
      | none => rfl
      | some x => rw [hE] at h; simp at h
    simp [alGet, List.find?_append, hn]

theorem alGet_filter_first {l : NatMap} {p : String × Nat → Bool} {k : String}
    {v : Nat} (h : alGet l k = some v) (hp : p (k, v) = true) :
    alGet (l.filter p) k = some v := by
  induction l with
  | nil => simp [alGet] at h
  | cons kv t ih =>
    rcases kv with ⟨a, b⟩
    by_cases hab : a = k
    · subst hab
      have hb : b = v := by
        simpa [alGet, List.find?_cons] using h
      subst hb
      simp [alGet, List.filter_cons, hp, List.find?_cons]
    · have hk : (a == k) = false := by simp [hab]
      have ht : alGet t k = some v := by
        simpa [alGet, List.find?_cons, hk] using h
      have := ih ht
      rw [List.filter_cons]
      by_cases hpk : p (a, b) = true
      · simp only [hpk, if_pos]
        simpa [alGet, List.find?_cons, hk] using this
      · simp only [Bool.not_eq_true] at hpk
        simp only [hpk, Bool.false_eq_true, if_false]
        exact this

theorem alGet_filter_none_of_nodup {l : NatMap} {p : String × Nat → Bool}
    {k : String} {v : Nat} (hnd : (l.map Prod.fst).Nodup)
    (h : alGet l k = some v) (hp : p (k, v) = false) :
    alGet (l.filter p) k = none := by
  induction l with
  | nil => simp [alGet] at h
  | cons kv t ih =>
    simp only [List.map_cons, List.nodup_cons] at hnd
    rcases kv with ⟨a, b⟩
    by_cases hab : a = k
    · subst hab
      have hb : b = v := by
        simpa [alGet, List.find?_cons] using h
      subst hb
      rw [List.filter_cons]
      simp only [hp, Bool.false_eq_true, if_false]
      exact alGet_eq_none_of_not_mem_keys (keys_filter_sub hnd.1)
    · have hk : (a == k) = false := by simp [hab]
      have ht : alGet t k = some v := by
        simpa [alGet, List.find?_cons, hk] using h
      have := ih hnd.2 ht
      rw [List.filter_cons]
      by_cases hpk : p (a, b) = true
      · simp only [hpk, if_pos]
        simpa [alGet, List.find?_cons, hk] using this
      · simp only [Bool.not_eq_true] at hpk
        simp only [hpk, Bool.false_eq_true, if_false]
        exact this

/-! ## Run characterizations of `maybeAppend` -/

theorem loadSeenIds_only_seen (st st' : BgState) (now : Nat)
    (h : st.seenRecordIds = st'.seenRecordIds) :
    loadSeenIds st now = loadSeenIds st' now := by
  unfold loadSeenIds
  rw [h]

theorem ensureHeaderOnce_frame (sheetId : String) (st : BgState) :
    (ensureHeaderOnce sheetId st).1.seenRecordIds = st.seenRecordIds ∧
    (ensureHeaderOnce sheetId st).1.inflightLocks = st.inflightLocks ∧
    (ensureHeaderOnce sheetId st).1.recentEntries = st.recentEntries := by
  unfold ensureHeaderOnce
  split <;> simp

/-- A `maybeAppend` invocation that passes the settings, lock and dedup
checks: the optimistic-commit run. -/
theorem maybeAppend_success_run (hash : String → String) (sheetId : String)
    (entry : CaptureEntry) (now : Nat) (st : BgState)
    (hsid : ¬ sheetId = "")
    (hlock : (alGet st.inflightLocks (resolvedId hash entry)).getD 0 ≤ now)
    (hfresh : alGet (loadSeenIds st now) (resolvedId hash entry) = none) :
    maybeAppend hash sheetId entry now st =
      ⟨⟨true, none, some true⟩,
       { seenRecordIds := alSet (loadSeenIds st now) (resolvedId hash entry) now
         cacheVersion := CACHE_VERSION
         lastHealthCheck := now
         recentEntries := (resolvedEntry hash entry :: st.recentEntries).take 50
         headerEnsured := (ensureHeaderOnce sheetId st).1.headerEnsured
         inflightLocks := alErase
           (alSet st.inflightLocks (resolvedId hash entry) (now + 10000))
           (resolvedId hash entry) },
       (ensureHeaderOnce sheetId st).2 ++
         [SheetEvent.loadSeen, SheetEvent.saveSeen,
          SheetEvent.pushRecent (resolvedEntry hash entry),
          SheetEvent.remoteAppendStart sheetId (resolvedEntry hash entry)],
       some (resolvedId hash entry, resolvedEntry hash entry)⟩ := by
  have hframe := ensureHeaderOnce_frame sheetId st
  unfold maybeAppend
  rw [if_neg hsid]
  simp only [resolvedId, resolvedEntry] at hlock hfresh ⊢
  rw [hframe.2.1]
  rw [if_neg (Nat.not_lt.2 hlock)]
  have hload : loadSeenIds
      { (ensureHeaderOnce sheetId st).1 with
          inflightLocks := alSet (ensureHeaderOnce sheetId st).1.inflightLocks
            (computeRecordId hash entry).1 (now + 10000) } now =
      loadSeenIds st now := by
    apply loadSeenIds_only_seen
    exact hframe.1
  rw [hframe.2.1] at hload
  rw [hload, hfresh]
  simp only [Option.isSome_none, Bool.false_eq_true, if_false]
  unfold saveSeenIds pushRecentEntry
  simp [hframe.1, hframe.2.1, hframe.2.2]

/-- A `maybeAppend` invocation that reaches the dedup check and finds the
id already seen: the duplicate run.  State is unchanged except for the
header flag, and no remote append is launched. -/
theorem maybeAppend_duplicate_run (hash : String → String) (sheetId : String)
    (entry : CaptureEntry) (now : Nat) (st : BgState)
    (hsid : ¬ sheetId = "")
    (hlock : (alGet st.inflightLocks (resolvedId hash entry)).getD 0 ≤ now)
    (hdup : (alGet (loadSeenIds st now) (resolvedId hash entry)).isSome = true) :
    maybeAppend hash sheetId entry now st =
      ⟨⟨false, some "duplicate", none⟩,
       { (ensureHeaderOnce sheetId st).1 with
           inflightLocks := alErase
             (alSet st.inflightLocks (resolvedId hash entry) (now + 10000))
             (resolvedId hash entry) },
       (ensureHeaderOnce sheetId st).2 ++ [SheetEvent.loadSeen], none⟩ := by
  have hframe := ensureHeaderOnce_frame sheetId st
  unfold maybeAppend
  rw [if_neg hsid]
  simp only [resolvedId] at hlock hdup ⊢
  rw [hframe.2.1]
  rw [if_neg (Nat.not_lt.2 hlock)]
  have hload : loadSeenIds
      { (ensureHeaderOnce sheetId st).1 with
          inflightLocks := alSet (ensureHeaderOnce sheetId st).1.inflightLocks
            (computeRecordId hash entry).1 (now + 10000) } now =
      loadSeenIds st now := by
    apply loadSeenIds_only_seen
    exact hframe.1
  rw [hframe.2.1] at hload
  rw [hload, hdup]
  simp only [if_true]

/-- A `maybeAppend` invocation that hits a live in-flight lock (expiry
strictly above `now`): it returns the in-flight refusal without touching
state, without reading the dedup cache, and without launching a remote
append — provided the header flag for the sheet is already set, as it is
whenever a capture for the same sheet is in flight. -/
theorem maybeAppend_inflight_run (hash : String → String) (sheetId : String)
    (entry : CaptureEntry) (now : Nat) (st : BgState)
    (hsid : ¬ sheetId = "")
    (hflag : sheetId ∈ st.headerEnsured)
    (hlock : now < (alGet st.inflightLocks (resolvedId hash entry)).getD 0) :
    maybeAppend hash sheetId entry now st =
      ⟨⟨false, some "inflight", none⟩, st, [], none⟩ := by
  unfold maybeAppend
  rw [if_neg hsid]
  unfold ensureHeaderOnce
  rw [if_pos hflag]
  simp only [resolvedId] at hlock
  rw [if_pos hlock]

/-! ## Claim theorems -/

/-- C4 (code_bug evidence): with the call sites' default `retry = 2`, a
request answered by consecutive 401 responses is fetched three times — the
second consecutive unauthorized response triggers another retry instead of
being propagated, contradicting the spec's (and the adjacent source
comment's) "retry exactly once". -/
theorem sheetsFetch_second_401_retried_again :
    sheetsFetch (fun _ => 401) 0 2 = (401, 3) ∧
      sheetsFetchCount (fun _ => 401) ≠ 2 := by
  constructor
  · rfl
  · decide

/-- C7: `getToken` returns the persisted bundle only when its absolute
expiry exceeds `now` plus the 60-second margin; a bundle at or within the
margin (or past expiry) is reported as absent. -/
theorem getToken_respects_expiry_margin (stored : Option TokenBundle) (now : Nat) :
    (∀ tb, getToken stored now = some tb → now + 60000 < tb.expiry) ∧
    (∀ tb, stored = some tb → tb.expiry ≤ now + 60000 → getToken stored now = none) := by
  constructor
  · intro tb h
    cases stored with
    | none => simp [getToken] at h
    | some t =>
      by_cases hc : 0 < t.expiry ∧ now + 60000 < t.expiry
      · simp only [getToken, if_pos hc, Option.some_inj] at h
        subst h
        exact hc.2
      · simp [getToken, hc] at h
  · intro tb hs hle
    subst hs
    have : ¬ (0 < tb.expiry ∧ now + 60000 < tb.expiry) := by
      intro ⟨_, h2⟩
      omega
    simp [getToken, this]

/-- Witness for C7 at a concrete bundle. -/
theorem getToken_respects_expiry_margin_witness :
    getToken (some ⟨"tok", 60000⟩) 0 = none ∧
      (∀ tb, getToken (some ⟨"tok", 200000⟩) 0 = some tb → 0 + 60000 < tb.expiry) :=
  ⟨(getToken_respects_expiry_margin (some ⟨"tok", 60000⟩) 0).2 ⟨"tok", 60000⟩ rfl
      (by norm_num),
   (getToken_respects_expiry_margin (some ⟨"tok", 200000⟩) 0).1⟩

/-- C6: an id stamped `T` in the persisted seen-set is absent from a
`load` performed later than `T + APPENDED_TTL_MS`, while a `load` at or
before that instant still returns it with its first-seen timestamp.
`T` is a `Date.now()` sample, hence positive; key uniqueness is the JS
object invariant. -/
theorem loadSeenIds_evicts_only_after_ttl (st : BgState) (id : String)
    (T now : Nat) (hnd : (st.seenRecordIds.map Prod.fst).Nodup)
    (hT : 0 < T) (hm : alGet st.seenRecordIds id = some T) :
    (T + APPENDED_TTL_MS < now → alGet (loadSeenIds st now) id = none) ∧
    (now ≤ T + APPENDED_TTL_MS → alGet (loadSeenIds st now) id = some T) := by
  constructor
  · intro hlt
    apply alGet_filter_none_of_nodup hnd hm
    simp only [decide_eq_false_iff_not]
    intro ⟨_, hage⟩
    omega
  · intro hle
    apply alGet_filter_first hm
    simp only [decide_eq_true_eq]
    exact ⟨hT, by omega⟩

/-- Witness for C6: an entry stamped at `t = 5` is retained at
`t = 5 + TTL` and evicted at `t = 5 + TTL + 1`. -/
theorem loadSeenIds_evicts_only_after_ttl_witness :
    alGet (loadSeenIds ⟨[("wd:R-12345", 5)], 1, 0, [], [], []⟩ (5 + APPENDED_TTL_MS + 1))
        "wd:R-12345" = none ∧
    alGet (loadSeenIds ⟨[("wd:R-12345", 5)], 1, 0, [], [], []⟩ (5 + APPENDED_TTL_MS))
        "wd:R-12345" = some 5 :=
  ⟨(loadSeenIds_evicts_only_after_ttl ⟨[("wd:R-12345", 5)], 1, 0, [], [], []⟩
      "wd:R-12345" 5 (5 + APPENDED_TTL_MS + 1) (by decide) (by decide) rfl).1
      (by omega),
   (loadSeenIds_evicts_only_after_ttl ⟨[("wd:R-12345", 5)], 1, 0, [], [], []⟩
      "wd:R-12345" 5 (5 + APPENDED_TTL_MS) (by decide) (by decide) rfl).2
      (by omega)⟩

theorem not_mem_keys_alErase (l : NatMap) (k : String) :
    k ∉ (alErase l k).map Prod.fst := by
  intro hmem
  rcases List.mem_map.1 hmem with ⟨kv, hkv, hfst⟩
  have := List.of_mem_filter hkv
  rw [hfst] at this
  simp at this

/-- C2: a capture that commits optimistically and whose remote append then
fails is rolled back — the reloaded, id-deleted, re-persisted cache no
longer contains the id on any later `load`, and a subsequent capture
resolving to the same id passes the lock and dedup checks and appends
again. -/
theorem remote_failure_rollback_makes_id_eligible
    (hash : String → String) (sheetId : String) (entry entry2 : CaptureEntry)
    (now1 now2 now3 now4 : Nat) (st0 : BgState)
    (hsid : ¬ sheetId = "")
    (hlock : (alGet st0.inflightLocks (resolvedId hash entry)).getD 0 ≤ now1)
    (hfresh : alGet (loadSeenIds st0 now1) (resolvedId hash entry) = none)
    (hsame : resolvedId hash entry2 = resolvedId hash entry) :
    alGet (loadSeenIds (remoteFailureRollback (resolvedId hash entry) now2
        (maybeAppend hash sheetId entry now1 st0).state) now3)
      (resolvedId hash entry) = none ∧
    (maybeAppend hash sheetId entry2 now4 (remoteFailureRollback
        (resolvedId hash entry) now2
        (maybeAppend hash sheetId entry now1 st0).state)).result.appended
      = true := by
  rw [maybeAppend_success_run hash sheetId entry now1 st0 hsid hlock hfresh]
  refine ⟨?_, ?_⟩
  · unfold remoteFailureRollback saveSeenIds loadSeenIds
    apply alGet_eq_none_of_not_mem_keys
    apply keys_filter_sub
    exact not_mem_keys_alErase _ _
  · rw [maybeAppend_success_run hash sheetId entry2 now4 _ hsid ?_ ?_]
    · rw [hsame]
      unfold remoteFailureRollback saveSeenIds
      dsimp only
      rw [alGet_alErase_self]
      exact Nat.zero_le _
    · rw [hsame]
      unfold remoteFailureRollback saveSeenIds loadSeenIds
      dsimp only
      apply alGet_eq_none_of_not_mem_keys
      apply keys_filter_sub
      exact not_mem_keys_alErase _ _

/-- Witness for C2 at a concrete LinkedIn capture on a fresh profile. -/
theorem remote_failure_rollback_makes_id_eligible_witness :
    alGet (loadSeenIds (remoteFailureRollback
        (resolvedId (fun _ => "h0") (sampleEntry "https://x.com/jobs/view/111/a")) 2000
        (maybeAppend (fun _ => "h0") "s1"
          (sampleEntry "https://x.com/jobs/view/111/a") 1000 emptyBgState).state)
        3000)
      (resolvedId (fun _ => "h0") (sampleEntry "https://x.com/jobs/view/111/a"))
      = none ∧
    (maybeAppend (fun _ => "h0") "s1"
        (sampleEntry "https://x.com/jobs/view/111/a") 4000
        (remoteFailureRollback
          (resolvedId (fun _ => "h0") (sampleEntry "https://x.com/jobs/view/111/a"))
          2000
          (maybeAppend (fun _ => "h0") "s1"
            (sampleEntry "https://x.com/jobs/view/111/a") 1000
            emptyBgState).state)).result.appended = true :=
  remote_failure_rollback_makes_id_eligible (fun _ => "h0") "s1"
    (sampleEntry "https://x.com/jobs/view/111/a")
    (sampleEntry "https://x.com/jobs/view/111/a")
    1000 2000 3000 4000 emptyBgState (by decide) (by decide) rfl rfl

/-- C10: the remote-failure rollback is frame-local to the seen-record
cache — the optimistically pushed entry stays at the head of the bounded
(50-cap, newest-first) recent list, the rollback leaves the recent list,
lock table and header flags of the post-commit state untouched, and
`get-recent` still returns the entry. -/
theorem rollback_keeps_recent_entry
    (hash : String → String) (sheetId : String) (entry : CaptureEntry)
    (now1 now2 : Nat) (st0 : BgState)
    (hsid : ¬ sheetId = "")
    (hlock : (alGet st0.inflightLocks (resolvedId hash entry)).getD 0 ≤ now1)
    (hfresh : alGet (loadSeenIds st0 now1) (resolvedId hash entry) = none) :
    (remoteFailureRollback (resolvedId hash entry) now2
        (maybeAppend hash sheetId entry now1 st0).state).recentEntries
      = (resolvedEntry hash entry :: st0.recentEntries).take 50 ∧
    (remoteFailureRollback (resolvedId hash entry) now2
        (maybeAppend hash sheetId entry now1 st0).state).recentEntries
      = (maybeAppend hash sheetId entry now1 st0).state.recentEntries ∧
    (remoteFailureRollback (resolvedId hash entry) now2
        (maybeAppend hash sheetId entry now1 st0).state).inflightLocks
      = (maybeAppend hash sheetId entry now1 st0).state.inflightLocks ∧
    (remoteFailureRollback (resolvedId hash entry) now2
        (maybeAppend hash sheetId entry now1 st0).state).headerEnsured
      = (maybeAppend hash sheetId entry now1 st0).state.headerEnsured ∧
    resolvedEntry hash entry ∈ getRecentResponse
      (remoteFailureRollback (resolvedId hash entry) now2
        (maybeAppend hash sheetId entry now1 st0).state) := by
  rw [maybeAppend_success_run hash sheetId entry now1 st0 hsid hlock hfresh]
  refine ⟨rfl, rfl, rfl, rfl, ?_⟩
  exact List.mem_cons_self _ _

/-- Witness for C10 at the same concrete capture. -/
theorem rollback_keeps_recent_entry_witness :
    (remoteFailureRollback
        (resolvedId (fun _ => "h0") (sampleEntry "https://x.com/jobs/view/111/a")) 2000
        (maybeAppend (fun _ => "h0") "s1"
          (sampleEntry "https://x.com/jobs/view/111/a") 1000
          emptyBgState).state).recentEntries
      = (resolvedEntry (fun _ => "h0") (sampleEntry "https://x.com/jobs/view/111/a")
          :: emptyBgState.recentEntries).take 50 ∧
    resolvedEntry (fun _ => "h0") (sampleEntry "https://x.com/jobs/view/111/a")
      ∈ getRecentResponse (remoteFailureRollback
          (resolvedId (fun _ => "h0") (sampleEntry "https://x.com/jobs/view/111/a"))
          2000
          (maybeAppend (fun _ => "h0") "s1"
            (sampleEntry "https://x.com/jobs/view/111/a") 1000
            emptyBgState).state) :=
  ⟨(rollback_keeps_recent_entry (fun _ => "h0") "s1"
      (sampleEntry "https://x.com/jobs/view/111/a") 1000 2000 emptyBgState
      (by decide) (by decide) rfl).1,
   (rollback_keeps_recent_entry (fun _ => "h0") "s1"
      (sampleEntry "https://x.com/jobs/view/111/a") 1000 2000 emptyBgState
      (by decide) (by decide) rfl).2.2.2.2⟩

/-- C3: two `append-entry` captures resolving to the same id within the
10-second lock window (and with no interleaved remote-failure rollback)
yield exactly one appended outcome: run sequentially, the first appends
and the second is refused as a persisted duplicate; and any attempt that
arrives while the lock table holds the id with expiry above `now` is
refused as in-flight with state unchanged, an empty event trace (so it
never reads the dedup cache) and no remote append launched. -/
theorem lock_window_allows_exactly_one_append
    (hash : String → String) (sheetId : String) (e1 e2 : CaptureEntry)
    (now1 now2 : Nat) (st0 : BgState)
    (hsid : ¬ sheetId = "")
    (hpos : 0 < now1)
    (hwindow : now2 < now1 + 10000)
    (hlock : (alGet st0.inflightLocks (resolvedId hash e1)).getD 0 ≤ now1)
    (hfresh : alGet (loadSeenIds st0 now1) (resolvedId hash e1) = none)
    (hsame : resolvedId hash e2 = resolvedId hash e1) :
    ((maybeAppend hash sheetId e1 now1 st0).result.appended = true ∧
     (maybeAppend hash sheetId e2 now2
        (maybeAppend hash sheetId e1 now1 st0).state).result
       = ⟨false, some "duplicate", none⟩) ∧
    (∀ (e : CaptureEntry) (now : Nat) (st : BgState),
      sheetId ∈ st.headerEnsured →
      now < (alGet st.inflightLocks (resolvedId hash e)).getD 0 →
      maybeAppend hash sheetId e now st
        = ⟨⟨false, some "inflight", none⟩, st, [], none⟩) := by
  refine ⟨⟨?_, ?_⟩, ?_⟩
  · rw [maybeAppend_success_run hash sheetId e1 now1 st0 hsid hlock hfresh]
  · rw [maybeAppend_success_run hash sheetId e1 now1 st0 hsid hlock hfresh]
    rw [maybeAppend_duplicate_run hash sheetId e2 now2 _ hsid ?_ ?_]
    · rw [hsame]
      dsimp only
      rw [alGet_alErase_self]
      exact Nat.zero_le _
    · rw [hsame]
      dsimp only
      have hset : alGet (alSet (loadSeenIds st0 now1) (resolvedId hash e1) now1)
          (resolvedId hash e1) = some now1 := alGet_alSet_self _ _ _
      have : alGet (loadSeenIds
          { seenRecordIds := alSet (loadSeenIds st0 now1) (resolvedId hash e1) now1
            cacheVersion := CACHE_VERSION
            lastHealthCheck := now1
            recentEntries := (resolvedEntry hash e1 :: st0.recentEntries).take 50
            headerEnsured := (ensureHeaderOnce sheetId st0).1.headerEnsured
            inflightLocks := alErase
              (alSet st0.inflightLocks (resolvedId hash e1) (now1 + 10000))
              (resolvedId hash e1) } now2) (resolvedId hash e1) = some now1 := by
        unfold loadSeenIds
        dsimp only
        apply alGet_filter_first hset
        simp only [decide_eq_true_eq]
        constructor
        · exact hpos
        · unfold APPENDED_TTL_MS
          omega
      rw [this]
      rfl
  · intro e now st hflag hl
    exact maybeAppend_inflight_run hash sheetId e now st hsid hflag hl

/-- Witness for C3 at two concrete captures of the same posting. -/
theorem lock_window_allows_exactly_one_append_witness :
    ((maybeAppend (fun _ => "h0") "s1"
        (sampleEntry "https://x.com/jobs/view/111/a") 1000
        emptyBgState).result.appended = true ∧
     (maybeAppend (fun _ => "h0") "s1"
        (sampleEntry "https://x.com/jobs/view/111/b") 5000
        (maybeAppend (fun _ => "h0") "s1"
          (sampleEntry "https://x.com/jobs/view/111/a") 1000
          emptyBgState).state).result
       = ⟨false, some "duplicate", none⟩) ∧
    (∀ (e : CaptureEntry) (now : Nat) (st : BgState),
      "s1" ∈ st.headerEnsured →
      now < (alGet st.inflightLocks (resolvedId (fun _ => "h0") e)).getD 0 →
      maybeAppend (fun _ => "h0") "s1" e now st
        = ⟨⟨false, some "inflight", none⟩, st, [], none⟩) :=
  lock_window_allows_exactly_one_append (fun _ => "h0") "s1"
    (sampleEntry "https://x.com/jobs/view/111/a")
    (sampleEntry "https://x.com/jobs/view/111/b")
    1000 5000 emptyBgState (by decide) (by decide) (by decide) (by decide)
    rfl (by rfl)

/-- C5 counterexample: on a fresh profile, two consecutive captures to the
same sheet: the second performs its remote append mutation with no header
write anywhere in its trace — `ensureHeaderOnce` only checks the
`headerEnsured` flag, so the header is not rewritten on every write
path. -/
theorem header_not_rewritten_on_every_append :
    ((maybeAppend (fun _ => "h0") "s1"
        (sampleEntry "https://x.com/jobs/view/222/a") 2000
        (maybeAppend (fun _ => "h0") "s1"
          (sampleEntry "https://x.com/jobs/view/111/a") 1000
          emptyBgState).state).events.any isRemoteMutation = true) ∧
    ((maybeAppend (fun _ => "h0") "s1"
        (sampleEntry "https://x.com/jobs/view/222/a") 2000
        (maybeAppend (fun _ => "h0") "s1"
          (sampleEntry "https://x.com/jobs/view/111/a") 1000
          emptyBgState).state).events.any isHeaderWrite = false) := by
  constructor
  · rfl
  · rfl

/-- C5 amended: the header is rewritten (as the first remote action)
before the mutation on any append or update whose sheet has no
`headerEnsured` flag yet — i.e. before the first mutation per sheet —
while flagged appends and updates mutate without any header write; the
delete path rewrites the header on every invocation, before the row
delete. -/
theorem header_reassert_policy :
    (∀ (hash : String → String) (sheetId : String) (entry : CaptureEntry)
        (now : Nat) (st : BgState),
      ¬ sheetId = "" → sheetId ∉ st.headerEnsured →
      ∃ evs, (maybeAppend hash sheetId entry now st).events
        = SheetEvent.ensureHeaderWrite sheetId :: evs) ∧
    (∀ (hash : String → String) (sheetId : String) (entry : CaptureEntry)
        (now : Nat) (st : BgState),
      sheetId ∈ st.headerEnsured →
      (maybeAppend hash sheetId entry now st).events.any isHeaderWrite = false) ∧
    (∀ (sheetId recordId : String) (st : BgState),
      sheetId ∉ st.headerEnsured →
      (sheetUpdateCmd sheetId recordId st).2
        = [SheetEvent.ensureHeaderWrite sheetId,
           SheetEvent.remoteUpdate sheetId recordId]) ∧
    (∀ (sheetId recordId : String) (st : BgState),
      sheetId ∈ st.headerEnsured →
      (sheetUpdateCmd sheetId recordId st).2.any isHeaderWrite = false) ∧
    (∀ (sheetId recordId : String) (preHeader idCol : List String),
      ¬ recordId = "" →
      ∃ evs, (deleteRowByRecordId sheetId recordId preHeader idCol).1
        = SheetEvent.ensureHeaderWrite sheetId :: evs) := by
  refine ⟨?_, ?_, ?_, ?_, ?_⟩
  · intro hash sheetId entry now st hsid hflag
    unfold maybeAppend ensureHeaderOnce
    rw [if_neg hsid, if_neg hflag]
    dsimp only
    split_ifs <;> exact ⟨_, rfl⟩
  · intro hash sheetId entry now st hflag
    by_cases hsid : sheetId = ""
    · unfold maybeAppend
      rw [if_pos hsid]
      rfl
    · unfold maybeAppend ensureHeaderOnce
      rw [if_neg hsid, if_pos hflag]
      dsimp only
      split_ifs <;> rfl
  · intro sheetId recordId st hflag
    unfold sheetUpdateCmd ensureHeaderOnce
    rw [if_neg hflag]
    rfl
  · intro sheetId recordId st hflag
    unfold sheetUpdateCmd ensureHeaderOnce
    rw [if_pos hflag]
    rfl
  · intro sheetId recordId preHeader idCol hrid
    unfold deleteRowByRecordId
    rw [if_neg hrid]
    dsimp only
    split
    · exact ⟨[], rfl⟩
    · split
      · exact ⟨[], rfl⟩
      · exact ⟨_, rfl⟩

/-- Witness for the amended C5 policy at concrete inputs. -/
theorem header_reassert_policy_witness :
    (∃ evs, (maybeAppend (fun _ => "h0") "s1" (sampleEntry "u") 5
        emptyBgState).events = SheetEvent.ensureHeaderWrite "s1" :: evs) ∧
    (∃ evs, (deleteRowByRecordId "s1" "r1" [] ["r1"]).1
        = SheetEvent.ensureHeaderWrite "s1" :: evs) :=
  ⟨header_reassert_policy.1 (fun _ => "h0") "s1" (sampleEntry "u") 5
      emptyBgState (by decide) (by decide),
   header_reassert_policy.2.2.2.2 "s1" "r1" [] ["r1"] (by decide)⟩

/-! ## Header-row lemmas (towards C8) -/

theorem getD_map_jsTrim (l : List String) (i : Nat) :
    (l.map jsTrim).getD i "" = jsTrim (l.getD i "") := by
  induction l generalizing i with
  | nil => cases i <;> rfl
  | cons x t ih =>
    cases i with
    | zero => rfl
    | succ j => simpa using ih j

theorem labelPositions_append (a b : List String) (label : String) :
    labelPositions (a ++ b) label
      = labelPositions a label
        ++ (labelPositions b label).map (a.length + ·) := by
  unfold labelPositions
  rw [List.length_append, List.range_add, List.filter_append]
  congr 1
  · apply List.filter_congr
    intro i hi
    have hlt : i < a.length := List.mem_range.1 hi
    rw [List.getD_append _ _ _ _ hlt]
  · rw [List.filter_map]
    congr 1
    apply List.filter_congr
    intro i _
    show labelMatches ((a ++ b).getD (a.length + i) "") label
      = labelMatches (b.getD i "") label
    rw [List.getD_append_right _ _ _ _ (Nat.le_add_right _ _), Nat.add_sub_cancel_left]

theorem labelPositions_map_jsTrim (l : List String) (label : String) :
    labelPositions (l.map jsTrim) label
      = (List.range l.length).filter
          (fun i => labelMatches (jsTrim (l.getD i "")) label) := by
  unfold labelPositions
  rw [List.length_map]
  apply List.filter_congr
  intro i _
  rw [getD_map_jsTrim]

theorem deleteColumns_map_shift (d : List String) (b : List String)
    (ds : List Nat) (h9 : d.length = 9) :
    deleteColumns (d ++ b) (ds.map (9 + ·)) = d ++ deleteColumns b ds := by
  induction ds generalizing b with
  | nil => rfl
  | cons j t ih =>
    unfold deleteColumns
    simp only [List.map_cons, List.foldl_cons]
    have : (d ++ b).eraseIdx (9 + j) = d ++ b.eraseIdx j := by
      rw [List.eraseIdx_append_of_length_le (by omega)]
      congr 1
      congr 1
      omega
    rw [this]
    exact ih (b.eraseIdx j)

theorem deleteColumns_append_one (b : List String) (x : String) (ds : List Nat)
    (hds : ds.Pairwise (fun a b => b < a)) (hlt : ∀ j ∈ ds, j < b.length) :
    deleteColumns (b ++ [x]) ds = deleteColumns b ds ++ [x] := by
  induction ds generalizing b with
  | nil => rfl
  | cons j t ih =>
    unfold deleteColumns
    simp only [List.foldl_cons]
    rw [List.eraseIdx_append_of_lt_length (hlt j (List.mem_cons_self _ _))]
    have hpw := List.pairwise_cons.1 hds
    exact ih (b.eraseIdx j) hpw.2 (fun i hi => by
      have h1 : i < j := hpw.1 i hi
      have h2 : j < b.length := hlt j (List.mem_cons_self _ _)
      rw [List.length_eraseIdx_of_lt h2]
      omega)

theorem positions_append_one (P : String → Bool) (b : List String) (x : String) :
    (List.range (b ++ [x]).length).filter (fun i => P ((b ++ [x]).getD i ""))
      = (List.range b.length).filter (fun i => P (b.getD i ""))
        ++ (if P x then [b.length] else []) := by
  rw [List.length_append, List.length_singleton, List.range_succ, List.filter_append]
  congr 1
  · apply List.filter_congr
    intro i hi
    rw [List.getD_append _ _ _ _ (List.mem_range.1 hi)]
  · have hx : (b ++ [x]).getD b.length "" = x := by
      rw [List.getD_append_right _ _ _ _ (Nat.le_refl _), Nat.sub_self]
      rfl
    by_cases hP : P x
    · simp [hx, hP]
    · simp [hx, hP]

theorem positions_pairwise_lt (P : String → Bool) (b : List String) :
    ((List.range b.length).filter (fun i => P (b.getD i ""))).Pairwise (· < ·) :=
  (List.pairwise_lt_range _).sublist (List.filter_sublist _)

theorem positions_mem_lt (P : String → Bool) (b : List String) (j : Nat)
    (h : j ∈ (List.range b.length).filter (fun i => P (b.getD i ""))) :
    j < b.length :=
  List.mem_range.1 (List.mem_of_mem_filter h)

/-- Deleting the descending position list of `P` from `b` is exactly
filtering `P` out of `b`: the desc order keeps every remaining index
valid. -/
theorem deleteColumns_desc_positions (P : String → Bool) (b : List String) :
    deleteColumns b
        (((List.range b.length).filter (fun i => P (b.getD i ""))).reverse)
      = b.filter (fun c => !(P c)) := by
  induction b using List.reverseRecOn with
  | nil => rfl
  | append_singleton b' x ih =>
    rw [positions_append_one, List.reverse_append, List.filter_append]
    by_cases hP : P x
    · simp only [hP, if_pos, List.reverse_singleton, List.singleton_append]
      unfold deleteColumns
      simp only [List.foldl_cons]
      have herase : (b' ++ [x]).eraseIdx b'.length = b' := by
        rw [List.eraseIdx_append_of_length_le (Nat.le_refl _), Nat.sub_self]
        exact List.append_nil b'
      rw [herase]
      rw [show List.filter (fun c => !(P c)) [x] = [] by simp [hP]]
      rw [List.append_nil]
      exact ih
    · simp only [hP]
      simp only [Bool.false_eq_true, if_false, List.reverse_nil, List.nil_append]
      rw [deleteColumns_append_one _ _ _
        (List.pairwise_reverse.2 ((positions_pairwise_lt P b').imp (fun h => h)))
        (fun j hj => positions_mem_lt P b' j (List.mem_reverse.1 hj))]
      rw [show List.filter (fun c => !(P c)) [x] = [x] by simp [hP]]
      rw [ih]

theorem sortDesc_eq_of_sorted (L X : List Nat) (hperm : List.Perm L X)
    (hs : X.Pairwise (fun a b : Nat => b ≤ a)) : sortDesc L = X := by
  haveI : IsAntisymm Nat (fun a b : Nat => b ≤ a) :=
    ⟨fun a b h1 h2 => Nat.le_antisymm h2 h1⟩
  have hsorted : (sortDesc L).Pairwise (fun a b : Nat => b ≤ a) := by
    have h2 : (sortDesc L).Pairwise (fun a b : Nat => (decide (b ≤ a)) = true) := by
      unfold sortDesc
      exact List.sorted_mergeSort
        (fun a b c hab hbc => by
          simp only [decide_eq_true_eq] at hab hbc ⊢
          omega)
        (fun a b => by
          rcases Nat.le_total b a with h | h <;> simp [h]) L
    exact h2.imp (fun h => of_decide_eq_true h)
  exact List.eq_of_perm_of_sorted ((List.mergeSort_perm L _).trans hperm)
    hsorted hs

theorem filter_or_perm (r : List Nat) (p q : Nat → Bool)
    (hdisj : ∀ i, ¬(p i = true ∧ q i = true)) :
    List.Perm (r.filter p ++ r.filter q) (r.filter (fun i => p i || q i)) := by
  induction r with
  | nil => rfl
  | cons i r' ih =>
    by_cases hp : p i = true
    · have hq : q i = false := by
        cases hE : q i with
        | false => rfl
        | true => exact absurd ⟨hp, hE⟩ (hdisj i)
      simp only [List.filter_cons, hp, hq, if_pos, Bool.false_eq_true, if_false,
        Bool.true_or, List.cons_append]
      exact ih.cons i
    · have hp' : p i = false := by
        cases hE : p i with
        | false => rfl
        | true => exact absurd hE hp
      by_cases hq : q i = true
      · simp only [List.filter_cons, hp', hq, Bool.false_eq_true, if_false,
          if_pos, Bool.false_or]
        exact (List.perm_middle).trans (ih.cons i)
      · have hq' : q i = false := by
          cases hE : q i with
          | false => rfl
          | true => exact absurd hE hq
        simp only [List.filter_cons, hp', hq', Bool.false_eq_true, if_false,
          Bool.false_or]
        exact ih

theorem getHeaderValues_putHeader (row : List String) :
    getHeaderValues (putHeaderRow row)
      = DEFAULT_HEADER ++ (row.drop 9).map jsTrim := by
  unfold getHeaderValues putHeaderRow
  rw [List.map_append]
  congr 1

theorem dupDeleteIndices_default (t : List String) :
    dupDeleteIndices (DEFAULT_HEADER ++ t) ["Cover Letter", "Status"]
      = (labelPositions t "Cover Letter").map (9 + ·)
        ++ (labelPositions t "Status").map (9 + ·) := by
  unfold dupDeleteIndices
  simp only [List.foldl_cons, List.foldl_nil]
  rw [labelPositions_append, labelPositions_append]
  have hCL : labelPositions DEFAULT_HEADER "Cover Letter" = [6] := by decide
  have hST : labelPositions DEFAULT_HEADER "Status" = [7] := by decide
  have hlen : DEFAULT_HEADER.length = 9 := by decide
  rw [hCL, hST, hlen]
  rcases hA : (labelPositions t "Cover Letter").map (9 + ·) with _ | ⟨a0, A⟩ <;>
    rcases hB : (labelPositions t "Status").map (9 + ·) with _ | ⟨b0, B⟩ <;>
      simp

theorem labelMatches_not_both (c : String) :
    ¬(labelMatches c "Cover Letter" = true ∧ labelMatches c "Status" = true) := by
  intro ⟨h1, h2⟩
  unfold labelMatches at h1 h2
  rw [beq_iff_eq] at h1 h2
  exact absurd (h1.symm.trans h2) (by decide)

theorem sortDesc_dup_default (t : List String) :
    sortDesc ((labelPositions t "Cover Letter").map (9 + ·)
        ++ (labelPositions t "Status").map (9 + ·))
      = (((List.range t.length).filter
          (fun i => labelMatches (t.getD i "") "Cover Letter"
                    || labelMatches (t.getD i "") "Status")).map (9 + ·)).reverse := by
  apply sortDesc_eq_of_sorted
  · have h1 : List.Perm
        (labelPositions t "Cover Letter" ++ labelPositions t "Status")
        ((List.range t.length).filter
          (fun i => labelMatches (t.getD i "") "Cover Letter"
                    || labelMatches (t.getD i "") "Status")) := by
      unfold labelPositions
      exact filter_or_perm _ _ _
        (fun i => labelMatches_not_both (t.getD i ""))
    have h2 := (h1.map (9 + ·))
    rw [List.map_append] at h2
    exact h2.trans (List.reverse_perm _).symm
  · rw [List.pairwise_reverse]
    have hpw := positions_pairwise_lt
      (fun c => labelMatches c "Cover Letter" || labelMatches c "Status") t
    refine List.Pairwise.map (9 + ·) (fun a b h => ?_) hpw
    show 9 + a ≤ 9 + b
    omega

theorem ensureHeaderRowHeader_closed (row : List String) :
    ensureHeaderRowHeader row
      = DEFAULT_HEADER ++ (row.drop 9).filter
          (fun c => !(labelMatches (jsTrim c) "Cover Letter"
                      || labelMatches (jsTrim c) "Status")) := by
  unfold ensureHeaderRowHeader removeDuplicateColumnsByLabels
  rw [getHeaderValues_putHeader]
  rw [if_neg (by simp [DEFAULT_HEADER])]
  rw [dupDeleteIndices_default]
  have hpos : (List.range ((row.drop 9).map jsTrim).length).filter
      (fun i => labelMatches (((row.drop 9).map jsTrim).getD i "") "Cover Letter"
                || labelMatches (((row.drop 9).map jsTrim).getD i "") "Status")
      = (List.range (row.drop 9).length).filter
        (fun i => labelMatches (jsTrim ((row.drop 9).getD i "")) "Cover Letter"
                  || labelMatches (jsTrim ((row.drop 9).getD i "")) "Status") := by
    rw [List.length_map]
    apply List.filter_congr
    intro i _
    rw [getD_map_jsTrim]
  by_cases hz : ((labelPositions ((row.drop 9).map jsTrim) "Cover Letter").map (9 + ·)
      ++ (labelPositions ((row.drop 9).map jsTrim) "Status").map (9 + ·)).length = 0
  · rw [if_pos hz]
    rw [List.length_eq_zero, List.append_eq_nil] at hz
    obtain ⟨hCLnil, hSTnil⟩ := hz
    rw [List.map_eq_nil_iff] at hCLnil hSTnil
    have hempty : ∀ c ∈ row.drop 9,
        (labelMatches (jsTrim c) "Cover Letter"
          || labelMatches (jsTrim c) "Status") = false := by
      intro c hc
      rcases List.getElem_of_mem hc with ⟨i, hi, hci⟩
      cases hE : (labelMatches (jsTrim c) "Cover Letter"
          || labelMatches (jsTrim c) "Status") with
      | false => rfl
      | true =>
        exfalso
        have hiT : i < ((row.drop 9).map jsTrim).length := by
          rw [List.length_map]
          exact hi
        have hcell : ((row.drop 9).map jsTrim).getD i "" = jsTrim c := by
          rw [getD_map_jsTrim, List.getD_eq_getElem _ _ hi, hci]
        cases hor : labelMatches (jsTrim c) "Cover Letter" with
        | true =>
          have hmem : i ∈ labelPositions ((row.drop 9).map jsTrim) "Cover Letter" := by
            unfold labelPositions
            refine List.mem_filter.2 ⟨List.mem_range.2 hiT, ?_⟩
            rw [hcell]
            exact hor
          rw [hCLnil] at hmem
          simp at hmem
        | false =>
          have hst : labelMatches (jsTrim c) "Status" = true := by
            rw [hor] at hE
            simpa using hE
          have hmem : i ∈ labelPositions ((row.drop 9).map jsTrim) "Status" := by
            unfold labelPositions
            refine List.mem_filter.2 ⟨List.mem_range.2 hiT, ?_⟩
            rw [hcell]
            exact hst
          rw [hSTnil] at hmem
          simp at hmem
    unfold putHeaderRow
    have hself : (row.drop 9).filter
        (fun c => !(labelMatches (jsTrim c) "Cover Letter"
                    || labelMatches (jsTrim c) "Status")) = row.drop 9 := by
      apply List.filter_eq_self.2
      intro c hc
      rw [hempty c hc]
      rfl
    rw [hself]
  · rw [if_neg hz]
    rw [sortDesc_dup_default, hpos]
    rw [← List.map_reverse]
    unfold putHeaderRow
    rw [deleteColumns_map_shift _ _ _ (by decide)]
    rw [deleteColumns_desc_positions
      (fun c => labelMatches (jsTrim c) "Cover Letter"
                || labelMatches (jsTrim c) "Status") (row.drop 9)]

/-- C8: invoking `ensureHeaderRow` twice leaves the header row identical to
one invocation; the result never duplicates the enumerated-field columns
(exactly one `Cover Letter` and one `Status` cell survive — the left-most,
canonical occurrence); and the right-to-left index deletion of
`removeDuplicateColumnsByLabels` removes exactly the non-left-most
occurrences, i.e. it equals position-wise filtering of the original row
(indices stay valid throughout). -/
theorem ensureHeaderRow_idempotent_and_dedups (row : List String) :
    ensureHeaderRowHeader (ensureHeaderRowHeader row) = ensureHeaderRowHeader row ∧
    ensureHeaderRowHeader row
      = DEFAULT_HEADER ++ (row.drop 9).filter
          (fun c => !(labelMatches (jsTrim c) "Cover Letter"
                      || labelMatches (jsTrim c) "Status")) ∧
    ((ensureHeaderRowHeader row).filter
        (fun c => labelMatches (jsTrim c) "Cover Letter")).length = 1 ∧
    ((ensureHeaderRowHeader row).filter
        (fun c => labelMatches (jsTrim c) "Status")).length = 1 := by
  have hclosed := ensureHeaderRowHeader_closed row
  have hfilter_nil : ∀ (label : String),
      (labelMatches · label) = (labelMatches · label) → True := fun _ _ => trivial
  refine ⟨?_, hclosed, ?_, ?_⟩
  · rw [hclosed, ensureHeaderRowHeader_closed]
    congr 1
    rw [List.drop_left' (by decide)]
    rw [List.filter_filter]
    apply List.filter_congr
    intro c _
    cases hE : (labelMatches (jsTrim c) "Cover Letter"
        || labelMatches (jsTrim c) "Status") <;> simp [hE]
  · rw [hclosed, List.filter_append]
    have h1 : DEFAULT_HEADER.filter
        (fun c => labelMatches (jsTrim c) "Cover Letter") = ["Cover Letter"] := by
      decide
    have h2 : ((row.drop 9).filter
        (fun c => !(labelMatches (jsTrim c) "Cover Letter"
                    || labelMatches (jsTrim c) "Status"))).filter
        (fun c => labelMatches (jsTrim c) "Cover Letter") = [] := by
      rw [List.filter_filter]
      apply List.filter_eq_nil.2
      intro c _
      cases hCL : labelMatches (jsTrim c) "Cover Letter" <;> simp [hCL]
    rw [h1, h2]
    rfl
  · rw [hclosed, List.filter_append]
    have h1 : DEFAULT_HEADER.filter
        (fun c => labelMatches (jsTrim c) "Status") = ["Status"] := by
      decide
    have h2 : ((row.drop 9).filter
        (fun c => !(labelMatches (jsTrim c) "Cover Letter"
                    || labelMatches (jsTrim c) "Status"))).filter
        (fun c => labelMatches (jsTrim c) "Status") = [] := by
      rw [List.filter_filter]
      apply List.filter_eq_nil.2
      intro c _
      cases hST : labelMatches (jsTrim c) "Status" <;>
        cases hCL : labelMatches (jsTrim c) "Cover Letter" <;> simp [hST, hCL]
    rw [h1, h2]
    rfl

/-! ## Row-codec lemmas (towards C9) -/

theorem string_mk_data (s : String) : String.mk s.data = s := by
  cases s
  rfl

theorem data_ne_nil_of_ne_empty {s : String} (h : ¬ s = "") : ¬ s.data = [] := by
  intro hd
  apply h
  cases s with
  | mk d =>
    rw [show d = [] from hd]

theorem scanList_cons_none {α : Type} (f : List Char → Option α) (c : Char)
    (l : List Char) (h : f (c :: l) = none) :
    scanList f (c :: l) = scanList f l := by
  have hstep : scanList f (c :: l)
      = match f (c :: l) with
        | some r => some r
        | none => scanList f l := rfl
  rw [hstep, h]

theorem scanList_here {α : Type} (f : List Char → Option α) (l : List Char)
    (r : α) (h : f l = some r) : scanList f l = some r := by
  cases l with
  | nil => simpa [scanList] using h
  | cons c t =>
    have hstep : scanList f (c :: t)
        = match f (c :: t) with
          | some r => some r
          | none => scanList f t := rfl
    rw [hstep, h]

theorem scanList_none {α : Type} (f : List Char → Option α) (l : List Char)
    (h : ∀ l', l' <:+ l → f l' = none) : scanList f l = none := by
  induction l with
  | nil =>
    unfold scanList
    exact h [] (List.suffix_refl [])
  | cons c t ih =>
    unfold scanList
    rw [h (c :: t) (List.suffix_refl _)]
    exact ih (fun l' hs => h l' (hs.trans (List.suffix_cons c t)))

theorem isPrefixOf_append_self (p rest : List Char) :
    p.isPrefixOf (p ++ rest) = true := by
  induction p with
  | nil => simp [List.isPrefixOf]
  | cons c t ih => simp [List.isPrefixOf, ih]

theorem mem_of_isPrefixOf {p l : List Char} {c : Char}
    (h : p.isPrefixOf l = true) (hc : c ∈ p) : c ∈ l :=
  (List.isPrefixOf_iff_prefix.1 h).sublist.subset hc

theorem takeWhile_not_quote_append (u tail : List Char)
    (hu : ∀ c ∈ u, ¬ c = '"') :
    (u ++ '"' :: tail).takeWhile (fun c => !(c == '"')) = u := by
  induction u with
  | nil => rfl
  | cons c t ih =>
    have hc : (c == '"') = false := by
      simp [hu c (List.mem_cons_self _ _)]
    simp [List.takeWhile_cons, hc,
      ih (fun x hx => hu x (List.mem_cons_of_mem _ hx))]

theorem foldr_esc_eq_self (l : List Char) (h : ∀ c ∈ l, ¬ c = '"') :
    l.foldr (fun c acc => if c == '"' then '"' :: '"' :: acc else c :: acc) []
      = l := by
  induction l with
  | nil => rfl
  | cons c t ih =>
    have hc : ¬ c = '"' := h c (List.mem_cons_self _ _)
    have ih2 := ih (fun x hx => h x (List.mem_cons_of_mem _ hx))
    simp [hc]
    simpa using ih2

theorem escQuotes_eq_self (s : String) (h : ∀ c ∈ s.data, ¬ c = '"') :
    escQuotes s = s := by
  unfold escQuotes
  rw [foldr_esc_eq_self s.data h]

theorem matchHyperUrlAt_encoded (u tail : List Char) (hne : ¬ u = [])
    (hu : ∀ c ∈ u, ¬ c = '"') :
    matchHyperUrlAt ("HYPERLINK(\"".data ++ (u ++ '"' :: tail)) = some u := by
  have h1 : ("HYPERLINK(\"".data ++ (u ++ '"' :: tail)).drop 11 = u ++ '"' :: tail :=
    List.drop_left' (by decide)
  have h2 := takeWhile_not_quote_append u tail hu
  have h3 : (u ++ '"' :: tail).drop u.length = '"' :: tail := List.drop_left u _
  unfold matchHyperUrlAt
  simp only [isPrefixOf_append_self, if_true, h1, h2, h3, if_neg hne]

theorem matchHyperTitleAt_encoded (u t tail : List Char) (hune : ¬ u = [])
    (hu : ∀ c ∈ u, ¬ c = '"') (htne : ¬ t = []) (ht : ∀ c ∈ t, ¬ c = '"') :
    matchHyperTitleAt
        ("HYPERLINK(\"".data
          ++ (u ++ '"' :: ',' :: '"' :: (t ++ '"' :: tail))) = some t := by
  have h1 : ("HYPERLINK(\"".data
      ++ (u ++ '"' :: ',' :: '"' :: (t ++ '"' :: tail))).drop 11
      = u ++ '"' :: ',' :: '"' :: (t ++ '"' :: tail) :=
    List.drop_left' (by decide)
  have h2 := takeWhile_not_quote_append u (',' :: '"' :: (t ++ '"' :: tail)) hu
  have h3 : (u ++ '"' :: ',' :: '"' :: (t ++ '"' :: tail)).drop u.length
      = '"' :: ',' :: '"' :: (t ++ '"' :: tail) := List.drop_left u _
  have h4 : ("\",\"".data).isPrefixOf ('"' :: ',' :: '"' :: (t ++ '"' :: tail))
      = true := isPrefixOf_append_self "\",\"".data (t ++ '"' :: tail)
  have h5 := takeWhile_not_quote_append t tail ht
  have h6 : (t ++ '"' :: tail).drop t.length = '"' :: tail := List.drop_left t _
  have h7 : List.drop 3 ('"' :: ',' :: '"' :: (t ++ '"' :: tail))
      = t ++ '"' :: tail := rfl
  unfold matchHyperTitleAt
  simp only [isPrefixOf_append_self, if_true, h1, h2, h3, h4, h5, h6, h7,
    if_neg hune, if_neg htne]

theorem matchHyperUrlAt_quote_mem {l : List Char} {r : List Char}
    (h : matchHyperUrlAt l = some r) : '"' ∈ l := by
  unfold matchHyperUrlAt at h
  by_cases hp : ("HYPERLINK(\"".data.isPrefixOf l) = true
  · exact mem_of_isPrefixOf hp (by decide)
  · rw [if_neg (by simpa using hp)] at h
    exact absurd h (by simp)

theorem matchHyperTitleAt_quote_mem {l : List Char} {r : List Char}
    (h : matchHyperTitleAt l = some r) : '"' ∈ l := by
  unfold matchHyperTitleAt at h
  by_cases hp : ("HYPERLINK(\"".data.isPrefixOf l) = true
  · exact mem_of_isPrefixOf hp (by decide)
  · rw [if_neg (by simpa using hp)] at h
    exact absurd h (by simp)

theorem scan_url_none_of_no_quote (l : List Char) (h : ∀ c ∈ l, ¬ c = '"') :
    scanList matchHyperUrlAt l = none := by
  apply scanList_none
  intro l' hs
  cases hE : matchHyperUrlAt l' with
  | none => rfl
  | some r =>
    exact absurd (hs.sublist.subset (matchHyperUrlAt_quote_mem hE))
      (fun hmem => h '"' hmem rfl)

theorem scan_title_none_of_no_quote (l : List Char) (h : ∀ c ∈ l, ¬ c = '"') :
    scanList matchHyperTitleAt l = none := by
  apply scanList_none
  intro l' hs
  cases hE : matchHyperTitleAt l' with
  | none => rfl
  | some r =>
    exact absurd (hs.sublist.subset (matchHyperTitleAt_quote_mem hE))
      (fun hmem => h '"' hmem rfl)

theorem decodeRow_job_title_eq (header row : List String) :
    (decodeRow header row).job_title
      = (if containsHyper (getCol header row "Job Title").data then
          match scanList matchHyperTitleAt (getCol header row "Job Title").data with
          | some t => String.mk t
          | none => getCol header row "Job Title"
         else getCol header row "Job Title") := rfl

theorem decodeRow_url_eq (header row : List String) :
    (decodeRow header row).job_posting_url
      = (if containsHyper (getCol header row "Job Title").data then
          match scanList matchHyperUrlAt (getCol header row "Job Title").data with
          | some u => String.mk u
          | none => ""
         else "") := rfl

theorem containsHyper_formula (rest : List Char) :
    containsHyper ('=' :: ("HYPERLINK(\"".data ++ rest)) = true := by
  unfold containsHyper
  rw [scanList_cons_none _ '=' _ rfl]
  rw [scanList_here _ _ () (by
    have hsplit : "HYPERLINK(\"".data ++ rest
        = "HYPERLINK".data ++ ("(\"".data ++ rest) := by
      rw [show ("HYPERLINK(\"".data) = "HYPERLINK".data ++ "(\"".data from rfl,
        List.append_assoc]
    rw [hsplit]
    simp [isPrefixOf_append_self])]
  rfl

/-- C9 counterexample: a title containing a double quote does not survive
the append-then-sync round trip: `appendRow` escapes `"` as `""` in the
HYPERLINK formula, but the popup decodes the display text with the regex
`HYPERLINK\("[^"]+","([^"]+)"`, which stops at the first escaped quote and
truncates the title. -/
theorem roundtrip_fails_on_quoted_title :
    (decodeRow DEFAULT_HEADER (buildRow "pd" DEFAULT_HEADER
        { sampleEntry "http://x" with
            job_title := "A\"B"
            record_id := some "r1" })).job_title = "A" ∧
    ¬ (decodeRow DEFAULT_HEADER (buildRow "pd" DEFAULT_HEADER
        { sampleEntry "http://x" with
            job_title := "A\"B"
            record_id := some "r1" })).job_title = "A\"B" := by
  constructor
  · rfl
  · decide

/-- C9 amended: the append-then-sync round trip recovers title, company,
location (with an absent location reading back as the empty cell), date
applied, record id and posting URL, for entries whose title is nonempty
and free of double quotes and whose URL is free of double quotes — the
restrictions the non-invertible quote escaping forces. -/
theorem appendRow_sync_roundtrip (entry : CaptureEntry) (postedDate : String)
    (htne : ¬ entry.job_title = "")
    (htq : ∀ c ∈ entry.job_title.data, ¬ c = '"')
    (huq : ∀ c ∈ entry.job_posting_url.data, ¬ c = '"') :
    (decodeRow DEFAULT_HEADER (buildRow postedDate DEFAULT_HEADER entry)).job_title
      = entry.job_title ∧
    (decodeRow DEFAULT_HEADER (buildRow postedDate DEFAULT_HEADER entry)).company
      = entry.company ∧
    (decodeRow DEFAULT_HEADER (buildRow postedDate DEFAULT_HEADER entry)).location
      = entry.location.getD "" ∧
    (decodeRow DEFAULT_HEADER (buildRow postedDate DEFAULT_HEADER entry)).date_applied
      = entry.date_applied ∧
    (decodeRow DEFAULT_HEADER (buildRow postedDate DEFAULT_HEADER entry)).record_id
      = entry.record_id.getD "" ∧
    (decodeRow DEFAULT_HEADER (buildRow postedDate DEFAULT_HEADER entry)).job_posting_url
      = entry.job_posting_url := by
  have hcell : getCol DEFAULT_HEADER (buildRow postedDate DEFAULT_HEADER entry)
      "Job Title" = hyperlinkTitle entry := rfl
  refine ⟨?_, rfl, rfl, rfl, rfl, ?_⟩
  · rw [decodeRow_job_title_eq, hcell]
    by_cases hurl : entry.job_posting_url = ""
    · have hcellv : hyperlinkTitle entry = entry.job_title := by
        unfold hyperlinkTitle
        rw [if_neg (fun hne => hne hurl)]
        exact escQuotes_eq_self _ htq
      rw [hcellv]
      by_cases hch : containsHyper entry.job_title.data = true
      · rw [if_pos hch, scan_title_none_of_no_quote _ htq]
      · rw [if_neg hch]
    · have hu_ne : ¬ entry.job_posting_url.data = [] :=
        data_ne_nil_of_ne_empty hurl
      have ht_ne : ¬ entry.job_title.data = [] :=
        data_ne_nil_of_ne_empty htne
      have hcellv : hyperlinkTitle entry
          = "=HYPERLINK(\"" ++ entry.job_posting_url ++ "\",\""
            ++ entry.job_title ++ "\")" := by
        unfold hyperlinkTitle
        rw [if_pos hurl, escQuotes_eq_self _ htq]
      have hdata : ("=HYPERLINK(\"" ++ entry.job_posting_url ++ "\",\""
            ++ entry.job_title ++ "\")").data
          = '=' :: ("HYPERLINK(\"".data ++ (entry.job_posting_url.data
              ++ '"' :: ',' :: '"' :: (entry.job_title.data ++ '"' :: [')']))) := by
        simp [String.data_append, List.append_assoc]
      rw [hcellv, hdata, if_pos (containsHyper_formula _)]
      rw [scanList_cons_none _ '=' _ rfl]
      rw [scanList_here _ _ _
        (matchHyperTitleAt_encoded entry.job_posting_url.data
          entry.job_title.data [')'] hu_ne huq ht_ne htq)]
  · rw [decodeRow_url_eq, hcell]
    by_cases hurl : entry.job_posting_url = ""
    · have hcellv : hyperlinkTitle entry = entry.job_title := by
        unfold hyperlinkTitle
        rw [if_neg (fun hne => hne hurl)]
        exact escQuotes_eq_self _ htq
      rw [hcellv, hurl]
      by_cases hch : containsHyper entry.job_title.data = true
      · rw [if_pos hch, scan_url_none_of_no_quote _ htq]
      · rw [if_neg hch]
    · have hu_ne : ¬ entry.job_posting_url.data = [] :=
        data_ne_nil_of_ne_empty hurl
      have hcellv : hyperlinkTitle entry
          = "=HYPERLINK(\"" ++ entry.job_posting_url ++ "\",\""
            ++ entry.job_title ++ "\")" := by
        unfold hyperlinkTitle
        rw [if_pos hurl, escQuotes_eq_self _ htq]
      have hdata : ("=HYPERLINK(\"" ++ entry.job_posting_url ++ "\",\""
            ++ entry.job_title ++ "\")").data
          = '=' :: ("HYPERLINK(\"".data ++ (entry.job_posting_url.data
              ++ '"' :: ',' :: '"' :: (entry.job_title.data ++ '"' :: [')']))) := by
        simp [String.data_append, List.append_assoc]
      rw [hcellv, hdata, if_pos (containsHyper_formula _)]
      rw [scanList_cons_none _ '=' _ rfl]
      rw [scanList_here _ _ _
        (matchHyperUrlAt_encoded entry.job_posting_url.data
          (',' :: '"' :: (entry.job_title.data ++ '"' :: [')'])) hu_ne huq)]

/-- Witness for the amended C9 round trip at a concrete entry. -/
theorem appendRow_sync_roundtrip_witness :
    (decodeRow DEFAULT_HEADER (buildRow "Aug 12th 2025" DEFAULT_HEADER
        { sampleEntry "http://x" with record_id := some "r1" })).job_title
      = ({ sampleEntry "http://x" with record_id := some "r1" } :
          CaptureEntry).job_title ∧
    (decodeRow DEFAULT_HEADER (buildRow "Aug 12th 2025" DEFAULT_HEADER
        { sampleEntry "http://x" with record_id := some "r1" })).company
      = ({ sampleEntry "http://x" with record_id := some "r1" } :
          CaptureEntry).company ∧
    (decodeRow DEFAULT_HEADER (buildRow "Aug 12th 2025" DEFAULT_HEADER
        { sampleEntry "http://x" with record_id := some "r1" })).location
      = ({ sampleEntry "http://x" with record_id := some "r1" } :
          CaptureEntry).location.getD "" ∧
    (decodeRow DEFAULT_HEADER (buildRow "Aug 12th 2025" DEFAULT_HEADER
        { sampleEntry "http://x" with record_id := some "r1" })).date_applied
      = ({ sampleEntry "http://x" with record_id := some "r1" } :
          CaptureEntry).date_applied ∧
    (decodeRow DEFAULT_HEADER (buildRow "Aug 12th 2025" DEFAULT_HEADER
        { sampleEntry "http://x" with record_id := some "r1" })).record_id
      = ({ sampleEntry "http://x" with record_id := some "r1" } :
          CaptureEntry).record_id.getD "" ∧
    (decodeRow DEFAULT_HEADER (buildRow "Aug 12th 2025" DEFAULT_HEADER
        { sampleEntry "http://x" with record_id := some "r1" })).job_posting_url
      = ({ sampleEntry "http://x" with record_id := some "r1" } :
          CaptureEntry).job_posting_url :=
  appendRow_sync_roundtrip
    { sampleEntry "http://x" with record_id := some "r1" } "Aug 12th 2025"
    (by decide) (by decide) (by decide)

/-! ## Identity-resolver lemmas (towards C1)

The C1 theorem quantifies over the Workday tenant subdomain; `goodChar`
states the hypothesis that a subdomain character is a lowercase ASCII
letter, a digit, or a dot. -/

theorem goodChar_spec {c : Char}
    (h : (97 ≤ c.toNat ∧ c.toNat ≤ 122) ∨ (48 ≤ c.toNat ∧ c.toNat ≤ 57)
      ∨ c = '.') :
    lowerChar c = c ∧ (97 ≤ c.toNat ∧ c.toNat ≤ 122)
      ∨ lowerChar c = c ∧ (48 ≤ c.toNat ∧ c.toNat ≤ 57)
      ∨ lowerChar c = c ∧ c.toNat = 46 := by
  have hn : (97 ≤ c.toNat ∧ c.toNat ≤ 122) ∨ (48 ≤ c.toNat ∧ c.toNat ≤ 57)
      ∨ c.toNat = 46 := by
    rcases h with h | h | h
    · exact Or.inl h
    · exact Or.inr (Or.inl h)
    · subst h
      exact Or.inr (Or.inr rfl)
  have hlow : lowerChar c = c := by
    unfold lowerChar
    rw [if_neg (by omega)]
  rcases hn with h | h | h
  · exact Or.inl ⟨hlow, h⟩
  · exact Or.inr (Or.inl ⟨hlow, h⟩)
  · exact Or.inr (Or.inr ⟨hlow, h⟩)

theorem goodChar_toNat {c : Char}
    (h : (97 ≤ c.toNat ∧ c.toNat ≤ 122) ∨ (48 ≤ c.toNat ∧ c.toNat ≤ 57)
      ∨ c = '.') :
    lowerChar c = c ∧ ((97 ≤ c.toNat ∧ c.toNat ≤ 122)
      ∨ (48 ≤ c.toNat ∧ c.toNat ≤ 57) ∨ c.toNat = 46) := by
  rcases goodChar_spec h with ⟨h1, h2⟩ | ⟨h1, h2⟩ | ⟨h1, h2⟩
  · exact ⟨h1, Or.inl h2⟩
  · exact ⟨h1, Or.inr (Or.inl h2)⟩
  · exact ⟨h1, Or.inr (Or.inr h2)⟩

theorem goodChar_ne {c d : Char}
    (h : (97 ≤ c.toNat ∧ c.toNat ≤ 122) ∨ (48 ≤ c.toNat ∧ c.toNat ≤ 57)
      ∨ c = '.')
    (hd : ¬ ((97 ≤ d.toNat ∧ d.toNat ≤ 122) ∨ (48 ≤ d.toNat ∧ d.toNat ≤ 57)
      ∨ d.toNat = 46)) : ¬ c = d := by
  intro he
  subst he
  exact hd (goodChar_toNat h).2

theorem takeWhile_append_left (p : Char → Bool) (a b : List Char)
    (h : ∀ c ∈ a, p c = true) :
    (a ++ b).takeWhile p = a ++ b.takeWhile p := by
  induction a with
  | nil => rfl
  | cons c t ih =>
    simp [List.takeWhile_cons, h c (List.mem_cons_self _ _),
      ih (fun x hx => h x (List.mem_cons_of_mem _ hx))]

theorem drop_append_left_add (a b : List Char) (k : Nat) :
    (a ++ b).drop (a.length + k) = b.drop k := by
  induction a with
  | nil => simp
  | cons c t ih =>
    simp only [List.cons_append, List.length_cons]
    rw [show t.length + 1 + k = (t.length + k) + 1 by omega]
    simpa using ih

theorem map_lowerChar_eq_self (l : List Char)
    (h : ∀ c ∈ l, lowerChar c = c) : l.map lowerChar = l := by
  induction l with
  | nil => rfl
  | cons c t ih =>
    simp only [List.map_cons, h c (List.mem_cons_self _ _)]
    rw [ih (fun x hx => h x (List.mem_cons_of_mem _ hx))]

theorem string_data_inj {a b : String} (h : a.data = b.data) : a = b := by
  cases a
  cases b
  exact congrArg String.mk h

theorem scanList_append_right {α : Type} (f : List Char → Option α)
    (a b : List Char)
    (h : ∀ a', a' <:+ a → ¬ a' = [] → f (a' ++ b) = none) :
    scanList f (a ++ b) = scanList f b := by
  induction a with
  | nil => rfl
  | cons c t ih =>
    have hstep : scanList f ((c :: t) ++ b)
        = match f ((c :: t) ++ b) with
          | some r => some r
          | none => scanList f (t ++ b) := rfl
    rw [hstep, h (c :: t) (List.suffix_refl _) (by simp)]
    exact ih (fun a' hs hne => h a' (hs.trans (List.suffix_cons c t)) hne)

theorem scanList_isSome_append {α : Type} (f : List Char → Option α)
    (a b : List Char) (h : (scanList f b).isSome = true) :
    (scanList f (a ++ b)).isSome = true := by
  induction a with
  | nil => exact h
  | cons c t ih =>
    have hstep : scanList f ((c :: t) ++ b)
        = match f ((c :: t) ++ b) with
          | some r => some r
          | none => scanList f (t ++ b) := rfl
    rw [hstep]
    cases hE : f ((c :: t) ++ b) with
    | some r => simp
    | none => simpa using ih

theorem matchReqAt_head_not (c : Char) (l : List Char)
    (h1 : ¬ c = '_') (h2 : ¬ c = '-') : matchReqAt (c :: l) = none := by
  cases l with
  | nil => rfl
  | cons r rest =>
    show (if ((c == '_' || c == '-') && (r == 'R' || r == 'r')) = true then
        match rest with
        | '-' :: rest2 => reqDigits [r, '-'] rest2
        | x => reqDigits [r] rest
      else none) = none
    rw [if_neg (by simp [h1, h2])]

theorem ciStarts_get {pat l : List Char} (h : ciStarts pat l = true)
    (i : Nat) (hi : i < pat.length) :
    ∃ c, l.get? i = some c ∧ pat.get? i = some (lowerChar c) := by
  induction pat generalizing l i with
  | nil => simp at hi
  | cons p ps ih =>
    cases l with
    | nil => simp [ciStarts] at h
    | cons c cs =>
      unfold ciStarts at h
      rw [Bool.and_eq_true] at h
      cases i with
      | zero =>
        refine ⟨c, rfl, ?_⟩
        have := (beq_iff_eq).1 h.1
        simp [this]
      | succ j =>
        simp only [List.length_cons, Nat.succ_lt_succ_iff] at hi
        simpa using ih h.2 j hi

theorem splitScheme_https (X : List Char) :
    splitScheme ('h' :: 't' :: 't' :: 'p' :: 's' :: ':' :: '/' :: '/' :: X)
      = some ("https".data, X) := by
  simp [splitScheme, List.isPrefixOf]

theorem hostChar_pass {c : Char}
    (h : (97 ≤ c.toNat ∧ c.toNat ≤ 122) ∨ (48 ≤ c.toNat ∧ c.toNat ≤ 57)
      ∨ c = '.') :
    (!(c == '/' || c == '?' || c == '#')) = true := by
  have h2 := (goodChar_toNat h).2
  have hne1 : ¬ c = '/' := goodChar_ne h (by decide)
  have hne2 : ¬ c = '?' := goodChar_ne h (by decide)
  have hne3 : ¬ c = '#' := goodChar_ne h (by decide)
  simp [hne1, hne2, hne3]

theorem parseUrl_wd (s : String)
    (hs : ∀ c ∈ s.data, (97 ≤ c.toNat ∧ c.toNat ≤ 122)
      ∨ (48 ≤ c.toNat ∧ c.toNat ≤ 57) ∨ c = '.') :
    parseUrl ("https://" ++ s
        ++ ".myworkdayjobs.com/en-US/External/job/Remote/SWE_R-12345/apply")
      = some ⟨"https:", String.mk (s.data ++ ".myworkdayjobs.com".data),
              "/en-US/External/job/Remote/SWE_R-12345/apply"⟩ := by
  have hdata : ("https://" ++ s
      ++ ".myworkdayjobs.com/en-US/External/job/Remote/SWE_R-12345/apply").data
      = 'h' :: 't' :: 't' :: 'p' :: 's' :: ':' :: '/' :: '/'
        :: (s.data
          ++ ".myworkdayjobs.com/en-US/External/job/Remote/SWE_R-12345/apply".data) := by
    simp [String.data_append]
  have htake : (s.data
      ++ ".myworkdayjobs.com/en-US/External/job/Remote/SWE_R-12345/apply".data).takeWhile
        (fun c => !(c == '/' || c == '?' || c == '#'))
      = s.data ++ ".myworkdayjobs.com".data := by
    rw [takeWhile_append_left _ _ _ (fun c hc => hostChar_pass (hs c hc))]
    congr 1
  have hlen : (s.data ++ ".myworkdayjobs.com".data).length
      = s.data.length + 18 := by
    rw [List.length_append]
    rfl
  have hdrop : (s.data
      ++ ".myworkdayjobs.com/en-US/External/job/Remote/SWE_R-12345/apply".data).drop
        (s.data.length + 18)
      = "/en-US/External/job/Remote/SWE_R-12345/apply".data := by
    rw [drop_append_left_add]
    decide
  have hmaps : s.data.map lowerChar = s.data :=
    map_lowerChar_eq_self s.data (fun c hc => (goodChar_toNat (hs c hc)).1)
  unfold parseUrl
  rw [hdata, splitScheme_https]
  simp only [htake, hlen, hdrop]
  rw [if_pos (by constructor <;> decide)]
  rw [if_neg (by simp)]
  have hpath : ("/en-US/External/job/Remote/SWE_R-12345/apply".data).takeWhile
      (fun c => !(c == '?' || c == '#'))
      = "/en-US/External/job/Remote/SWE_R-12345/apply".data := by decide
  simp only [hpath]
  rw [if_neg (by decide)]
  congr 1
  congr 1
  · rw [List.map_append, hmaps]
    congr 1

theorem scanReq_skip (a b : List Char)
    (h : ∀ c ∈ a, ¬ c = '_' ∧ ¬ c = '-') :
    scanList matchReqAt (a ++ b) = scanList matchReqAt b := by
  apply scanList_append_right
  intro a' hsfx hne
  cases a' with
  | nil => exact absurd rfl hne
  | cons c t =>
    have hc : c ∈ a := hsfx.sublist.subset (List.mem_cons_self _ _)
    rw [List.cons_append]
    exact matchReqAt_head_not c _ (h c hc).1 (h c hc).2

theorem normalizeWorkdayUrl_wd (s : String)
    (hs : ∀ c ∈ s.data, (97 ≤ c.toNat ∧ c.toNat ≤ 122)
      ∨ (48 ≤ c.toNat ∧ c.toNat ≤ 57) ∨ c = '.') :
    normalizeWorkdayUrl ("https://" ++ s
        ++ ".myworkdayjobs.com/en-US/External/job/Remote/SWE_R-12345/apply")
      = ("https://" ++ s ++ ".myworkdayjobs.com/External/job/Remote/SWE_R-12345",
         some "R-12345") := by
  have hmaps : s.data.map lowerChar = s.data :=
    map_lowerChar_eq_self s.data (fun c hc => (goodChar_toNat (hs c hc)).1)
  have hhost : lowerStr (String.mk (s.data ++ ".myworkdayjobs.com".data))
      = String.mk (s.data ++ ".myworkdayjobs.com".data) := by
    unfold lowerStr
    congr 1
    rw [show (String.mk (s.data ++ ".myworkdayjobs.com".data)).data
        = s.data ++ ".myworkdayjobs.com".data from rfl]
    rw [List.map_append, hmaps]
    congr 1
  have hpath3 : collapseSlashes (stripApply (stripLocale (stripTrailingSlashes
      ("/en-US/External/job/Remote/SWE_R-12345/apply" : String).data)))
      = "/External/job/Remote/SWE_R-12345".data := by decide
  have hclean : ("https:" : String) ++ "//"
        ++ String.mk (s.data ++ ".myworkdayjobs.com".data)
        ++ "/External/job/Remote/SWE_R-12345"
      = "https://" ++ s ++ ".myworkdayjobs.com/External/job/Remote/SWE_R-12345" := by
    apply string_data_inj
    simp [String.data_append, List.append_assoc]
  have hcdata : ("https://" ++ s
        ++ ".myworkdayjobs.com/External/job/Remote/SWE_R-12345").data
      = "https://".data ++ (s.data
        ++ ".myworkdayjobs.com/External/job/Remote/SWE_R-12345".data) := by
    simp [String.data_append, List.append_assoc]
  have hreq : findReqToken ("https://" ++ s
      ++ ".myworkdayjobs.com/External/job/Remote/SWE_R-12345").data
      = some "R-12345".data := by
    rw [hcdata]
    unfold findReqToken
    rw [scanReq_skip _ _ (by decide)]
    rw [scanReq_skip _ _ (fun c hc =>
      ⟨goodChar_ne (hs c hc) (by decide), goodChar_ne (hs c hc) (by decide)⟩)]
    decide
  unfold normalizeWorkdayUrl
  rw [parseUrl_wd s hs]
  simp only [hhost, hpath3, hclean]
  rw [hreq]
  rfl

theorem matchLinkedInAt_head_ne (c : Char) (l : List Char) (h : ¬ c = '/') :
    matchLinkedInAt (c :: l) = none := by
  have hc : ¬ (("/jobs/view/".data).isPrefixOf (c :: l) = true) := by
    intro hE
    rw [show ("/jobs/view/".data).isPrefixOf (c :: l)
        = (('/' == c) && ("jobs/view/".data).isPrefixOf l) from rfl] at hE
    rw [Bool.and_eq_true] at hE
    exact h ((beq_iff_eq).1 hE.1).symm
  unfold matchLinkedInAt
  rw [if_neg hc]

theorem matchLinkedInAt_two_slash (l : List Char) :
    matchLinkedInAt ('/' :: '/' :: l) = none := by
  have hc : ¬ (("/jobs/view/".data).isPrefixOf ('/' :: '/' :: l) = true) := by
    intro hE
    rw [show ("/jobs/view/".data).isPrefixOf ('/' :: '/' :: l)
        = (('/' == '/') && (('j' == '/') && ("obs/view/".data).isPrefixOf l))
      from rfl] at hE
    simp at hE
  unfold matchLinkedInAt
  rw [if_neg hc]

theorem matchLinkedInAt_slash_wd (s : String)
    (hs : ∀ c ∈ s.data, (97 ≤ c.toNat ∧ c.toNat ≤ 122)
      ∨ (48 ≤ c.toNat ∧ c.toNat ≤ 57) ∨ c = '.') :
    matchLinkedInAt ('/' :: (s.data
      ++ ".myworkdayjobs.com/en-US/External/job/Remote/SWE_R-12345/apply".data))
      = none := by
  have hc : ¬ (("/jobs/view/".data).isPrefixOf ('/' :: (s.data
      ++ ".myworkdayjobs.com/en-US/External/job/Remote/SWE_R-12345/apply".data))
      = true) := by
    intro hE
    have hpre := List.isPrefixOf_iff_prefix.1 hE
    rcases hpre with ⟨t, ht⟩
    have h5 : (('/' : Char) :: (s.data
        ++ ".myworkdayjobs.com/en-US/External/job/Remote/SWE_R-12345/apply".data)).get? 5
        = some '/' := by
      rw [← ht, List.get?_append (by decide : (5 : Nat) < ("/jobs/view/".data).length)]
      decide
    rw [show (('/' : Char) :: (s.data
        ++ ".myworkdayjobs.com/en-US/External/job/Remote/SWE_R-12345/apply".data))
        = ['/'] ++ (s.data
          ++ ".myworkdayjobs.com/en-US/External/job/Remote/SWE_R-12345/apply".data)
      from rfl] at h5
    rw [List.get?_append_right (by decide : (['/'] : List Char).length ≤ 5)] at h5
    have h4 : (s.data
        ++ ".myworkdayjobs.com/en-US/External/job/Remote/SWE_R-12345/apply".data).get? 4
        = some '/' := by simpa using h5
    rcases Nat.lt_or_ge 4 s.data.length with hlt | hge
    · rw [List.get?_append hlt] at h4
      have hmem : '/' ∈ s.data := List.get?_mem h4
      have hg := (goodChar_toNat (hs '/' hmem)).2
      have h47 : ('/' : Char).toNat = 47 := rfl
      rcases hg with h' | h' | h' <;> omega
    · rw [List.get?_append_right hge] at h4
      have hdec : ∀ k, k < 5 →
          ¬ ((".myworkdayjobs.com/en-US/External/job/Remote/SWE_R-12345/apply".data).get? k
            = some '/') := by decide
      exact hdec (4 - s.data.length) (by omega) h4
  unfold matchLinkedInAt
  rw [if_neg hc]

theorem linkedIn_none_wd (s : String)
    (hs : ∀ c ∈ s.data, (97 ≤ c.toNat ∧ c.toNat ≤ 122)
      ∨ (48 ≤ c.toNat ∧ c.toNat ≤ 57) ∨ c = '.') :
    linkedInJobId ("https://" ++ s
      ++ ".myworkdayjobs.com/en-US/External/job/Remote/SWE_R-12345/apply") = none := by
  have hdata : ("https://" ++ s
      ++ ".myworkdayjobs.com/en-US/External/job/Remote/SWE_R-12345/apply").data
      = 'h' :: 't' :: 't' :: 'p' :: 's' :: ':' :: '/' :: '/'
        :: (s.data
          ++ ".myworkdayjobs.com/en-US/External/job/Remote/SWE_R-12345/apply".data) := by
    simp [String.data_append]
  unfold linkedInJobId
  rw [hdata]
  rw [scanList_cons_none _ 'h' _ (matchLinkedInAt_head_ne 'h' _ (by decide))]
  rw [scanList_cons_none _ 't' _ (matchLinkedInAt_head_ne 't' _ (by decide))]
  rw [scanList_cons_none _ 't' _ (matchLinkedInAt_head_ne 't' _ (by decide))]
  rw [scanList_cons_none _ 'p' _ (matchLinkedInAt_head_ne 'p' _ (by decide))]
  rw [scanList_cons_none _ 's' _ (matchLinkedInAt_head_ne 's' _ (by decide))]
  rw [scanList_cons_none _ ':' _ (matchLinkedInAt_head_ne ':' _ (by decide))]
  rw [scanList_cons_none _ '/' _ (matchLinkedInAt_two_slash _)]
  rw [scanList_cons_none _ '/' _ (matchLinkedInAt_slash_wd s hs)]
  rw [scanList_append_right matchLinkedInAt s.data _ (by
    intro a' hsfx hne
    cases a' with
    | nil => exact absurd rfl hne
    | cons c t =>
      have hcm : c ∈ s.data := hsfx.sublist.subset (List.mem_cons_self _ _)
      rw [List.cons_append]
      exact matchLinkedInAt_head_ne c _ (goodChar_ne (hs c hcm) (by decide)))]
  rw [show scanList matchLinkedInAt
      (".myworkdayjobs.com/en-US/External/job/Remote/SWE_R-12345/apply".data) = none
    from by decide]
  rfl

theorem matchLeverAt_head_ne (c : Char) (l : List Char)
    (h : ¬ lowerChar c = 'h') : matchLeverAt (c :: l) = none := by
  have hc : ¬ (ciStarts "http".data (c :: l) = true) := by
    intro hE
    rw [show ciStarts "http".data (c :: l)
        = (('h' == lowerChar c) && ciStarts "ttp".data l) from rfl] at hE
    rw [Bool.and_eq_true] at hE
    exact h ((beq_iff_eq).1 hE.1).symm
  unfold matchLeverAt
  rw [if_neg hc]

theorem leverTail_none_of_no_colon (l : List Char)
    (h : ∀ x ∈ l, ¬ lowerChar x = ':') : leverTail l = none := by
  cases l with
  | nil => rfl
  | cons c cs =>
    have hc : ¬ (ciStarts "://jobs.lever.co/".data (c :: cs) = true) := by
      intro hE
      rw [show ciStarts "://jobs.lever.co/".data (c :: cs)
          = ((':' == lowerChar c) && ciStarts "//jobs.lever.co/".data cs)
        from rfl] at hE
      rw [Bool.and_eq_true] at hE
      exact h c (List.mem_cons_self _ _) ((beq_iff_eq).1 hE.1).symm
    unfold leverTail
    rw [if_neg hc]

theorem matchLeverAt_none_of_no_colon (l : List Char)
    (h : ∀ x ∈ l, ¬ lowerChar x = ':') : matchLeverAt l = none := by
  by_cases hp : ciStarts "http".data l = true
  · simp only [matchLeverAt]
    rw [if_pos hp]
    have hr : ∀ x ∈ l.drop 4, ¬ lowerChar x = ':' :=
      fun x hx => h x (List.drop_subset 4 l hx)
    cases hd : l.drop 4 with
    | nil => rfl
    | cons c rest =>
      show (match (if (lowerChar c == 's') = true then leverTail rest else none) with
            | some cap => some cap
            | none => leverTail (c :: rest)) = none
      have hrest : leverTail rest = none :=
        leverTail_none_of_no_colon rest
          (fun x hx => hr x (by rw [hd]; exact List.mem_cons_of_mem c hx))
      have hfull : leverTail (c :: rest) = none :=
        leverTail_none_of_no_colon _ (fun x hx => hr x (by rw [hd]; exact hx))
      by_cases hcs : (lowerChar c == 's') = true
      · rw [if_pos hcs, hrest]
        exact hfull
      · rw [if_neg hcs]
        exact hfull
  · simp only [matchLeverAt]
    rw [if_neg hp]

theorem ciStarts_jl_false (s : String)
    (hs : ∀ c ∈ s.data, (97 ≤ c.toNat ∧ c.toNat ≤ 122)
      ∨ (48 ≤ c.toNat ∧ c.toNat ≤ 57) ∨ c = '.') :
    ciStarts "jobs.lever.co/".data (s.data
      ++ ".myworkdayjobs.com/en-US/External/job/Remote/SWE_R-12345/apply".data)
      = false := by
  cases hE : ciStarts "jobs.lever.co/".data (s.data
      ++ ".myworkdayjobs.com/en-US/External/job/Remote/SWE_R-12345/apply".data) with
  | false => rfl
  | true =>
    exfalso
    rcases ciStarts_get hE 13 (by decide) with ⟨c, hgetc, hpatc⟩
    have hl : lowerChar c = '/' := by
      rw [show ("jobs.lever.co/".data).get? 13 = some '/' from by decide] at hpatc
      injection hpatc with h'
      exact h'.symm
    rcases Nat.lt_or_ge 13 s.data.length with hlt | hge
    · rw [List.get?_append hlt] at hgetc
      have hmem : c ∈ s.data := List.get?_mem hgetc
      have hg := goodChar_toNat (hs c hmem)
      rw [hg.1] at hl
      subst hl
      have h47 : ('/' : Char).toNat = 47 := rfl
      rcases hg.2 with h' | h' | h' <;> omega
    · rw [List.get?_append_right hge] at hgetc
      have hdec : ∀ k, k < 14 →
          ¬ (((".myworkdayjobs.com/en-US/External/job/Remote/SWE_R-12345/apply".data).get? k).map
            lowerChar = some '/') := by decide
      exact hdec (13 - s.data.length) (by omega) (by rw [hgetc]; simp [hl])

theorem matchLeverAt_wd_start (s : String)
    (hs : ∀ c ∈ s.data, (97 ≤ c.toNat ∧ c.toNat ≤ 122)
      ∨ (48 ≤ c.toNat ∧ c.toNat ≤ 57) ∨ c = '.') :
    matchLeverAt ('h' :: 't' :: 't' :: 'p' :: 's' :: ':' :: '/' :: '/'
      :: (s.data
        ++ ".myworkdayjobs.com/en-US/External/job/Remote/SWE_R-12345/apply".data))
      = none := by
  have hjl := ciStarts_jl_false s hs
  have htail : leverTail (':' :: '/' :: '/' :: (s.data
      ++ ".myworkdayjobs.com/en-US/External/job/Remote/SWE_R-12345/apply".data))
      = none := by
    have hc : ¬ (ciStarts "://jobs.lever.co/".data (':' :: '/' :: '/' :: (s.data
        ++ ".myworkdayjobs.com/en-US/External/job/Remote/SWE_R-12345/apply".data))
        = true) := by
      intro hE
      rw [show ciStarts "://jobs.lever.co/".data (':' :: '/' :: '/' :: (s.data
          ++ ".myworkdayjobs.com/en-US/External/job/Remote/SWE_R-12345/apply".data))
          = ((':' == lowerChar ':') && (('/' == lowerChar '/')
            && (('/' == lowerChar '/') && ciStarts "jobs.lever.co/".data (s.data
              ++ ".myworkdayjobs.com/en-US/External/job/Remote/SWE_R-12345/apply".data))))
        from rfl] at hE
      rw [hjl] at hE
      simp at hE
    unfold leverTail
    rw [if_neg hc]
  have hstep : matchLeverAt ('h' :: 't' :: 't' :: 'p' :: 's' :: ':' :: '/' :: '/'
      :: (s.data
        ++ ".myworkdayjobs.com/en-US/External/job/Remote/SWE_R-12345/apply".data))
      = match leverTail (':' :: '/' :: '/' :: (s.data
          ++ ".myworkdayjobs.com/en-US/External/job/Remote/SWE_R-12345/apply".data)) with
        | some cap => some cap
        | none => leverTail ('s' :: ':' :: '/' :: '/' :: (s.data
            ++ ".myworkdayjobs.com/en-US/External/job/Remote/SWE_R-12345/apply".data)) := rfl
  rw [hstep, htail]
  rfl

theorem lever_none_wd (s : String)
    (hs : ∀ c ∈ s.data, (97 ≤ c.toNat ∧ c.toNat ≤ 122)
      ∨ (48 ≤ c.toNat ∧ c.toNat ≤ 57) ∨ c = '.') :
    leverJobId ("https://" ++ s
      ++ ".myworkdayjobs.com/en-US/External/job/Remote/SWE_R-12345/apply") = none := by
  have hdata : ("https://" ++ s
      ++ ".myworkdayjobs.com/en-US/External/job/Remote/SWE_R-12345/apply").data
      = 'h' :: 't' :: 't' :: 'p' :: 's' :: ':' :: '/' :: '/'
        :: (s.data
          ++ ".myworkdayjobs.com/en-US/External/job/Remote/SWE_R-12345/apply".data) := by
    simp [String.data_append]
  unfold leverJobId
  rw [hdata]
  rw [scanList_cons_none _ 'h' _ (matchLeverAt_wd_start s hs)]
  rw [scanList_cons_none _ 't' _ (matchLeverAt_head_ne 't' _ (by decide))]
  rw [scanList_cons_none _ 't' _ (matchLeverAt_head_ne 't' _ (by decide))]
  rw [scanList_cons_none _ 'p' _ (matchLeverAt_head_ne 'p' _ (by decide))]
  rw [scanList_cons_none _ 's' _ (matchLeverAt_head_ne 's' _ (by decide))]
  rw [scanList_cons_none _ ':' _ (matchLeverAt_head_ne ':' _ (by decide))]
  rw [scanList_cons_none _ '/' _ (matchLeverAt_head_ne '/' _ (by decide))]
  rw [scanList_cons_none _ '/' _ (matchLeverAt_head_ne '/' _ (by decide))]
  rw [scanList_append_right matchLeverAt s.data _ (by
    intro a' hsfx hne
    cases a' with
    | nil => exact absurd rfl hne
    | cons c t =>
      apply matchLeverAt_none_of_no_colon
      intro x hx
      rcases List.mem_append.1 hx with hx' | hx'
      · have hxm : x ∈ s.data := hsfx.sublist.subset hx'
        have hg := goodChar_toNat (hs x hxm)
        rw [hg.1]
        exact goodChar_ne (hs x hxm) (by decide)
      · exact (by decide : ∀ x ∈
            (".myworkdayjobs.com/en-US/External/job/Remote/SWE_R-12345/apply".data),
            ¬ lowerChar x = ':') x hx')]
  rw [show scanList matchLeverAt
      (".myworkdayjobs.com/en-US/External/job/Remote/SWE_R-12345/apply".data) = none
    from by decide]
  rfl

theorem icontains_workday_wd (s : String)
    (hs : ∀ c ∈ s.data, (97 ≤ c.toNat ∧ c.toNat ≤ 122)
      ∨ (48 ≤ c.toNat ∧ c.toNat ≤ 57) ∨ c = '.') :
    icontains ("https://" ++ s
      ++ ".myworkdayjobs.com/en-US/External/job/Remote/SWE_R-12345/apply") "workday"
      = true := by
  have hdata : ("https://" ++ s
      ++ ".myworkdayjobs.com/en-US/External/job/Remote/SWE_R-12345/apply").data
      = "https://".data ++ (s.data
        ++ ".myworkdayjobs.com/en-US/External/job/Remote/SWE_R-12345/apply".data) := by
    simp [String.data_append]
  have hmaps : s.data.map lowerChar = s.data :=
    map_lowerChar_eq_self s.data (fun c hc => (goodChar_toNat (hs c hc)).1)
  unfold icontains
  rw [hdata]
  simp only [List.map_append, hmaps]
  rw [show ("https://".data).map lowerChar = "https://".data from by decide]
  rw [show (".myworkdayjobs.com/en-US/External/job/Remote/SWE_R-12345/apply".data).map
      lowerChar
      = ".myworkdayjobs.com/en-us/external/job/remote/swe_r-12345/apply".data
    from by decide]
  exact scanList_isSome_append _ ("https://".data)
    (s.data ++ ".myworkdayjobs.com/en-us/external/job/remote/swe_r-12345/apply".data)
    (scanList_isSome_append _ s.data
      (".myworkdayjobs.com/en-us/external/job/remote/swe_r-12345/apply".data)
      (by decide))

/-- C1: for a Workday requisition URL of the documented shape
`https://<tenant>.myworkdayjobs.com/en-US/External/job/Remote/SWE_R-12345/apply`
(the tenant subdomain made of lowercase ASCII letters, digits and dots),
`computeRecordId` returns the id `wd:R-12345` — the `SWE_R-12345` segment's
requisition token uppercased with `_` turned into `-` — and rewrites the
entry's `job_posting_url` to the cleaned URL with the `/en-US` locale
prefix removed and the `/apply` suffix (and everything after it)
truncated. -/
theorem workday_url_resolves_to_requisition_id (hash : String → String)
    (s : String) (entry : CaptureEntry)
    (hs : ∀ c ∈ s.data, (97 ≤ c.toNat ∧ c.toNat ≤ 122)
      ∨ (48 ≤ c.toNat ∧ c.toNat ≤ 57) ∨ c = '.')
    (hurl : entry.job_posting_url = "https://" ++ s
      ++ ".myworkdayjobs.com/en-US/External/job/Remote/SWE_R-12345/apply") :
    computeRecordId hash entry
      = ("wd:R-12345",
         { entry with job_posting_url := "https://" ++ s
             ++ ".myworkdayjobs.com/External/job/Remote/SWE_R-12345" }) := by
  simp only [computeRecordId, hurl]
  rw [linkedIn_none_wd s hs]
  rw [lever_none_wd s hs]
  rw [icontains_workday_wd s hs]
  rw [normalizeWorkdayUrl_wd s hs]
  rfl

/-- Witness for C1 at the tenant `acme.wd5`. -/
theorem workday_url_resolves_to_requisition_id_witness :
    computeRecordId (fun _ => "") (sampleEntry ("https://" ++ "acme.wd5"
      ++ ".myworkdayjobs.com/en-US/External/job/Remote/SWE_R-12345/apply"))
      = ("wd:R-12345",
         { sampleEntry ("https://" ++ "acme.wd5"
             ++ ".myworkdayjobs.com/en-US/External/job/Remote/SWE_R-12345/apply") with
           job_posting_url := "https://" ++ "acme.wd5"
             ++ ".myworkdayjobs.com/External/job/Remote/SWE_R-12345" }) :=
  workday_url_resolves_to_requisition_id (fun _ => "") "acme.wd5" _
    (by decide) (by decide)

end JobTracker
